import Mathlib

/-!
Shallow embedding of the u2ckdump ingest and indexing engine: the record
types, the inverted indexes, the add/update/sweep paths of `parse_xml.go`,
and the `DecisionSet` operations.  Go slices are Lean lists, Go maps are
association lists, machine integers are `Int`/`Nat` with explicit wrapping
where the code converts, and pointer mutation is explicit state passing.
-/

namespace U2ck

/-- Go `int32(n)` conversion: wrap `n` into `[-2^31, 2^31)`. -/
def toInt32 (n : Int) : Int := (n + 2 ^ 31).emod (2 ^ 32) - 2 ^ 31

/-- `IP4` resource: 32-bit address (as `Nat`) plus timestamp, as in `content.go`'s
`IP4{IP4 uint32; Ts int64}`.  Go `==` on this struct compares both fields. -/
structure IP4 where
  ip4 : Nat := 0
  ts : Int := 0
deriving DecidableEq, Repr, Inhabited

/-- `IP6` resource: the 16-byte address is kept as its byte string (the code
keys and compares it via `string(ip6.IP6)`), plus timestamp. -/
structure IP6 where
  ip6 : List Nat := []
  ts : Int := 0
deriving DecidableEq, Repr, Inhabited

/-- `Subnet4` resource: verbatim subnet string plus timestamp. -/
structure Subnet4 where
  subnet4 : String := ""
  ts : Int := 0
deriving DecidableEq, Repr, Inhabited

/-- `Subnet6` resource: verbatim subnet string plus timestamp. -/
structure Subnet6 where
  subnet6 : String := ""
  ts : Int := 0
deriving DecidableEq, Repr, Inhabited

/-- `Domain` resource: raw domain string plus timestamp. -/
structure Domain where
  domain : String := ""
  ts : Int := 0
deriving DecidableEq, Repr, Inhabited

/-- `URL` resource: raw URL string plus timestamp. -/
structure URL where
  url : String := ""
  ts : Int := 0
deriving DecidableEq, Repr, Inhabited

/-- `Decision` triple: organization, number, date. -/
structure Decision where
  org : String := ""
  number : String := ""
  date : String := ""
deriving DecidableEq, Repr, Inhabited

/-- Decoded `<content>` record (`Content` in the source): attributes, the
decision, the six resource lists, the HTTPS counter mutated while applying
URLs, and the 64-bit record fingerprint set by `NewContent`. -/
structure Content where
  id : Int := 0
  entryType : Int := 0
  urgencyType : Int := 0
  includeTime : Int := 0
  blockType : String := ""
  hash : String := ""
  ts : Int := 0
  decision : Decision := {}
  url : List URL := []
  domain : List Domain := []
  ip4 : List IP4 := []
  ip6 : List IP6 := []
  subnet4 : List Subnet4 := []
  subnet6 : List Subnet6 := []
  httpsBlock : Int := 0
  recordHash : Nat := 0
deriving DecidableEq, Repr, Inhabited

/-- Packed entry stored in the dump (`PackedContent` in the source). -/
structure PackedContent where
  id : Int := 0
  recordHash : Nat := 0
  registryUpdateTime : Int := 0
  payload : List Nat := []
  blockType : Int := 0
  decision : Nat := 0
  ip4 : List IP4 := []
  ip6 : List IP6 := []
  subnet4 : List Subnet4 := []
  subnet6 : List Subnet6 := []
  domain : List Domain := []
  url : List URL := []
deriving DecidableEq, Repr, Inhabited

/-- Id set stored at one index key (`ArrayIntSet` in the source; its own
file is not under src/). -/
abbrev ArrayIntSet := List Int

/-- Modelled from the spec: `ArrayIntSet.Add` is the idempotent id insert of
section 4.3 (the defining file is not under src/): append the id when absent. -/
def ArrayIntSet.Add (l : ArrayIntSet) (id : Int) : ArrayIntSet :=
  if id ∈ l then l else l ++ [id]

/-- Modelled from the spec: `ArrayIntSet.Del` is the idempotent id removal of
section 4.3 (the defining file is not under src/): drop the id from the set. -/
def ArrayIntSet.Del (l : ArrayIntSet) (id : Int) : ArrayIntSet :=
  l.filter (fun x => x != id)

/-- Association-list write, modelling Go map assignment `m[k] = v`. -/
def alInsert {K V : Type} [BEq K] (m : List (K × V)) (k : K) (v : V) : List (K × V) :=
  match m with
  | [] => [(k, v)]
  | kv :: rest => if kv.1 == k then (k, v) :: rest else kv :: alInsert rest k v

/-- Association-list delete, modelling Go `delete(m, k)`. -/
def alErase {K V : Type} [BEq K] (m : List (K × V)) (k : K) : List (K × V) :=
  m.filter (fun kv => kv.1 != k)

/-- Modelled from the spec: inverted-index insert of section 4.3/4.4 (the
`InsertToIndex*` method bodies are not under src/): idempotently add the id
to the set stored at the key. -/
def idxInsert {K : Type} [BEq K] (m : List (K × ArrayIntSet)) (k : K) (id : Int) :
    List (K × ArrayIntSet) :=
  let v := (List.lookup k m).getD []
  alInsert m k (v.Add id)

/-- Modelled from the spec: inverted-index remove of section 4.3/4.4 (the
`RemoveFrom*` method bodies are not under src/): drop the id from the set at
the key and delete the key when the set becomes empty. -/
def idxRemove {K : Type} [BEq K] (m : List (K × ArrayIntSet)) (k : K) (id : Int) :
    List (K × ArrayIntSet) :=
  match List.lookup k m with
  | none => m
  | some v =>
    let v := v.Del id
    if v.length = 0 then alErase m k else alInsert m k v

/-- Decision index: decision hash to id set (`DecisionSet` in the source). -/
abbrev DecisionSet := List (Nat × ArrayIntSet)

/-- `DecisionSet.Remove` — delete the decision (from the source). -/
def DecisionSet.Remove (a : DecisionSet) (decision : Nat) (id : Int) : DecisionSet :=
  match List.lookup decision a with
  | some v =>
    let v := v.Del id
    if v.length = 0 then alErase a decision else alInsert a decision v
  | none => a

/-- `DecisionSet.Insert` — add the decision (from the source). -/
def DecisionSet.Insert (a : DecisionSet) (decision : Nat) (id : Int) : DecisionSet :=
  let v := (List.lookup decision a).getD []
  alInsert a decision (v.Add id)

/-- The in-memory dump store: entry map, six inverted indexes, the decision
index and the global update time (`Dump` in the source). -/
structure DumpState where
  contentIdx : List (Int × PackedContent) := []
  ip4Idx : List (Nat × ArrayIntSet) := []
  ip6Idx : List (List Nat × ArrayIntSet) := []
  subnet4Idx : List (String × ArrayIntSet) := []
  subnet6Idx : List (String × ArrayIntSet) := []
  domainIdx : List (String × ArrayIntSet) := []
  urlIdx : List (String × ArrayIntSet) := []
  decisionIdx : DecisionSet := []
  utime : Int := 0
deriving DecidableEq, Repr, Inhabited

/-- Modelled from the spec: `InsertToIndexIP4` (dump method not under src/). -/
def DumpState.InsertToIndexIP4 (dump : DumpState) (k : Nat) (id : Int) : DumpState :=
  { dump with ip4Idx := idxInsert dump.ip4Idx k id }

/-- Modelled from the spec: `RemoveFromIndexIP4` (dump method not under src/). -/
def DumpState.RemoveFromIndexIP4 (dump : DumpState) (k : Nat) (id : Int) : DumpState :=
  { dump with ip4Idx := idxRemove dump.ip4Idx k id }

/-- Modelled from the spec: `InsertToIndexIP6` (dump method not under src/). -/
def DumpState.InsertToIndexIP6 (dump : DumpState) (k : List Nat) (id : Int) : DumpState :=
  { dump with ip6Idx := idxInsert dump.ip6Idx k id }

/-- Modelled from the spec: `RemoveFromIndexIP6` (dump method not under src/). -/
def DumpState.RemoveFromIndexIP6 (dump : DumpState) (k : List Nat) (id : Int) : DumpState :=
  { dump with ip6Idx := idxRemove dump.ip6Idx k id }

/-- Modelled from the spec: `InsertToIndexSubnet4` (dump method not under src/). -/
def DumpState.InsertToIndexSubnet4 (dump : DumpState) (k : String) (id : Int) : DumpState :=
  { dump with subnet4Idx := idxInsert dump.subnet4Idx k id }

/-- Modelled from the spec: `RemoveFromSubnet4` (dump method not under src/;
the source uses this asymmetric name). -/
def DumpState.RemoveFromSubnet4 (dump : DumpState) (k : String) (id : Int) : DumpState :=
  { dump with subnet4Idx := idxRemove dump.subnet4Idx k id }

/-- Modelled from the spec: `InsertToIndexSubnet6` (dump method not under src/). -/
def DumpState.InsertToIndexSubnet6 (dump : DumpState) (k : String) (id : Int) : DumpState :=
  { dump with subnet6Idx := idxInsert dump.subnet6Idx k id }

/-- Modelled from the spec: `RemoveFromIndexSubnet6` (dump method not under src/). -/
def DumpState.RemoveFromIndexSubnet6 (dump : DumpState) (k : String) (id : Int) : DumpState :=
  { dump with subnet6Idx := idxRemove dump.subnet6Idx k id }

/-- Modelled from the spec: `InsertToIndexDomain` (dump method not under src/). -/
def DumpState.InsertToIndexDomain (dump : DumpState) (k : String) (id : Int) : DumpState :=
  { dump with domainIdx := idxInsert dump.domainIdx k id }

/-- Modelled from the spec: `RemoveFromIndexDomain` (dump method not under src/). -/
def DumpState.RemoveFromIndexDomain (dump : DumpState) (k : String) (id : Int) : DumpState :=
  { dump with domainIdx := idxRemove dump.domainIdx k id }

/-- Modelled from the spec: `InsertToIndexURL` (dump method not under src/). -/
def DumpState.InsertToIndexURL (dump : DumpState) (k : String) (id : Int) : DumpState :=
  { dump with urlIdx := idxInsert dump.urlIdx k id }

/-- Modelled from the spec: `RemoveFromIndexURL` (dump method not under src/). -/
def DumpState.RemoveFromIndexURL (dump : DumpState) (k : String) (id : Int) : DumpState :=
  { dump with urlIdx := idxRemove dump.urlIdx k id }

/-- Modelled from the spec: `InsertToIndexDecision` delegates to
`DecisionSet.Insert` (the dump method wrapper is not under src/). -/
def DumpState.InsertToIndexDecision (dump : DumpState) (k : Nat) (id : Int) : DumpState :=
  { dump with decisionIdx := dump.decisionIdx.Insert k id }

/-- Modelled from the spec: `RemoveFromIndexDecision` delegates to
`DecisionSet.Remove` (the dump method wrapper is not under src/). -/
def DumpState.RemoveFromIndexDecision (dump : DumpState) (k : Nat) (id : Int) : DumpState :=
  { dump with decisionIdx := dump.decisionIdx.Remove k id }

/-- 64-bit FNV-1a offset basis. -/
def fnvOffset64 : Nat := 14695981039346656037

/-- 64-bit FNV-1a prime. -/
def fnvPrime64 : Nat := 1099511628211

/-- 64-bit FNV-1a over a byte list, as `hash/fnv`'s `New64a` used by `Parse`
and `hashDecision`: xor the byte in, multiply by the prime, keep 64 bits. -/
def fnv1a64 (bytes : List Nat) : Nat :=
  bytes.foldl (fun h b => ((h ^^^ b % 256) * fnvPrime64) % 2 ^ 64) fnvOffset64

/-- Bytes of a string (ASCII model of Go's `[]byte(s)`). -/
def strBytes (s : String) : List Nat := s.data.map Char.toNat

/-- `hashDecision` — FNV-1a over `org SP number SP date` (from the source). -/
def hashDecision (decision : Decision) : Nat :=
  fnv1a64 (strBytes decision.org ++ strBytes " " ++ strBytes decision.number ++
    strBytes " " ++ strBytes decision.date)

/-- Modelled from the spec: `NormalizeDomain` (the normalizer source is not
under src/): trim surrounding whitespace, lowercase, strip a leading `*.`. -/
def NormalizeDomain (s : String) : String :=
  let s := s.trim.toLower
  if s.startsWith "*." then s.drop 2 else s

/-- Modelled from the spec: `NormalizeURL` (the normalizer source is not
under src/): lowercase the scheme and the host, leave path and query as is. -/
def NormalizeURL (s : String) : String :=
  match s.splitOn "://" with
  | [] => s
  | [_] => s
  | scheme :: rest =>
    let tailStr := String.intercalate "://" rest
    let host := tailStr.takeWhile (fun c => c ≠ '/')
    let path := tailStr.drop host.length
    scheme.toLower ++ "://" ++ host.toLower ++ path

/-- Modelled from the spec: block-type constant (`content.go` is not under
src/); values are arbitrary but distinct. -/
def BlockTypeURL : Int := 0

/-- Modelled from the spec: block-type constant, see `BlockTypeURL`. -/
def BlockTypeHTTPS : Int := 1

/-- Modelled from the spec: block-type constant, see `BlockTypeURL`. -/
def BlockTypeDomain : Int := 2

/-- Modelled from the spec: block-type constant, see `BlockTypeURL`. -/
def BlockTypeMask : Int := 3

/-- Modelled from the spec: block-type constant, see `BlockTypeURL`. -/
def BlockTypeIP : Int := 4

/-- `constructBlockType` — derive the block type from the `blockType`
attribute and the HTTPS counter (from the source; the unknown-value log is
dropped, the fallback is kept). -/
def Content.constructBlockType (record : Content) : Int :=
  if record.blockType = "ip" then BlockTypeIP
  else if record.blockType = "domain" then BlockTypeDomain
  else if record.blockType = "domain-mask" then BlockTypeMask
  else if record.httpsBlock = 0 then BlockTypeURL
  else BlockTypeHTTPS

/-- `InsertIP4` — append unless the same (address, ts) tuple is already in
the list (the source scans and returns early on a match). -/
def PackedContent.InsertIP4 (pack : PackedContent) (ip4 : IP4) : PackedContent :=
  if ip4 ∈ pack.ip4 then pack else { pack with ip4 := pack.ip4 ++ [ip4] }

/-- `InsertIP6` — append unless a tuple with the same byte string and ts is
present (the source compares `string(ip6.IP6)` and `Ts`). -/
def PackedContent.InsertIP6 (pack : PackedContent) (ip6 : IP6) : PackedContent :=
  if ip6 ∈ pack.ip6 then pack else { pack with ip6 := pack.ip6 ++ [ip6] }

/-- `InsertSubnet4` — append unless the tuple is present. -/
def PackedContent.InsertSubnet4 (pack : PackedContent) (subnet4 : Subnet4) : PackedContent :=
  if subnet4 ∈ pack.subnet4 then pack else { pack with subnet4 := pack.subnet4 ++ [subnet4] }

/-- `InsertSubnet6` — append unless the tuple is present. -/
def PackedContent.InsertSubnet6 (pack : PackedContent) (subnet6 : Subnet6) : PackedContent :=
  if subnet6 ∈ pack.subnet6 then pack else { pack with subnet6 := pack.subnet6 ++ [subnet6] }

/-- `InsertDomain` — append unless the tuple is present. -/
def PackedContent.InsertDomain (pack : PackedContent) (domain : Domain) : PackedContent :=
  if domain ∈ pack.domain then pack else { pack with domain := pack.domain ++ [domain] }

/-- `InsertURL` — append unless the tuple is present. -/
def PackedContent.InsertURL (pack : PackedContent) (u : URL) : PackedContent :=
  if u ∈ pack.url then pack else { pack with url := pack.url ++ [u] }

/-- View of a Go slice being mutated in place while a `range` loop iterates a
header captured at loop start: `backing` is the backing array at the captured
length, `curLen` the slice's current length (the live slice is
`backing.take curLen`). -/
structure SliceIter (α : Type) where
  backing : List α
  curLen : Nat
deriving Repr

/-- The source's `Remove*` helpers during an update loop: find the first
element equal to `x` in the live slice and shift the tail left with
`append(s[:i], s[i+1:]...)`; the position past the new length keeps its old
value, which the still-running `range` loop can observe. -/
def goRemove {α : Type} [BEq α] (it : SliceIter α) (x : α) : SliceIter α :=
  let cur := it.backing.take it.curLen
  match cur.findIdx? (fun y => y == x) with
  | none => it
  | some j =>
    { backing := cur.eraseIdx j ++ it.backing.drop (it.curLen - 1),
      curLen := it.curLen - 1 }

/-- `ExtractAndApplyIP4` — add path for IPv4: copy the record list verbatim
and index every value (from the source). -/
def DumpState.ExtractAndApplyIP4 (dump : DumpState) (record : Content)
    (pack : PackedContent) : DumpState × PackedContent :=
  if record.ip4.length > 0 then
    let pack := { pack with ip4 := record.ip4 }
    let dump := pack.ip4.foldl (fun d i => d.InsertToIndexIP4 i.ip4 pack.id) dump
    (dump, pack)
  else (dump, pack)

/-- `ExtractAndApplyIP6` — add path for IPv6, keyed by the address bytes. -/
def DumpState.ExtractAndApplyIP6 (dump : DumpState) (record : Content)
    (pack : PackedContent) : DumpState × PackedContent :=
  if record.ip6.length > 0 then
    let pack := { pack with ip6 := record.ip6 }
    let dump := pack.ip6.foldl (fun d i => d.InsertToIndexIP6 i.ip6 pack.id) dump
    (dump, pack)
  else (dump, pack)

/-- `ExtractAndApplySubnet4` — add path for IPv4 subnets. -/
def DumpState.ExtractAndApplySubnet4 (dump : DumpState) (record : Content)
    (pack : PackedContent) : DumpState × PackedContent :=
  if record.subnet4.length > 0 then
    let pack := { pack with subnet4 := record.subnet4 }
    let dump := pack.subnet4.foldl
      (fun d s => d.InsertToIndexSubnet4 s.subnet4 pack.id) dump
    (dump, pack)
  else (dump, pack)

/-- `ExtractAndApplySubnet6` — add path for IPv6 subnets.  The source inserts
into the IPv4-subnet index (`InsertToIndexSubnet4`), which is translated
as written. -/
def DumpState.ExtractAndApplySubnet6 (dump : DumpState) (record : Content)
    (pack : PackedContent) : DumpState × PackedContent :=
  if record.subnet6.length > 0 then
    let pack := { pack with subnet6 := record.subnet6 }
    let dump := pack.subnet6.foldl
      (fun d s => d.InsertToIndexSubnet4 s.subnet6 pack.id) dump
    (dump, pack)
  else (dump, pack)

/-- `ExtractAndApplyDomain` — add path for domains, indexed under the
normalized name. -/
def DumpState.ExtractAndApplyDomain (dump : DumpState) (record : Content)
    (pack : PackedContent) : DumpState × PackedContent :=
  if record.domain.length > 0 then
    let pack := { pack with domain := record.domain }
    let dump := pack.domain.foldl
      (fun d dom => d.InsertToIndexDomain (NormalizeDomain dom.domain) pack.id) dump
    (dump, pack)
  else (dump, pack)

/-- `ExtractAndApplyURL` — add path for URLs: index normalized URLs, count
`https://` ones into the record's HTTPS counter, then derive the block type. -/
def DumpState.ExtractAndApplyURL (dump : DumpState) (record : Content)
    (pack : PackedContent) : DumpState × PackedContent × Content :=
  let (dump, pack, record) :=
    if record.url.length > 0 then
      let pack := { pack with url := record.url }
      let (dump, record) := pack.url.foldl
        (fun (acc : DumpState × Content) u =>
          let nURL := NormalizeURL u.url
          let record := if nURL.startsWith "https://" then
              { acc.2 with httpsBlock := acc.2.httpsBlock + 1 }
            else acc.2
          (acc.1.InsertToIndexURL nURL pack.id, record))
        (dump, record)
      (dump, pack, record)
    else (dump, pack, record)
  (dump, { pack with blockType := record.constructBlockType }, record)

/-- `ExtractAndApplyDecision` — hash the decision, store it on the pack and
index the pack id under it. -/
def DumpState.ExtractAndApplyDecision (dump : DumpState) (record : Content)
    (pack : PackedContent) : DumpState × PackedContent :=
  let pack := { pack with decision := hashDecision record.decision }
  (dump.InsertToIndexDecision pack.decision pack.id, pack)

/-- `EctractAndApplyUpdateIP4` — update path for IPv4 (from the source): the
`ipExisted` journal is keyed by the 32-bit address only, and the removal pass
ranges over the merged `pack.IP4` slice while `RemoveIP4` shifts it in place
(the captured `range` header keeps the original length). -/
def DumpState.EctractAndApplyUpdateIP4 (dump : DumpState) (record : Content)
    (pack : PackedContent) : DumpState × PackedContent :=
  let start : DumpState × PackedContent × List Nat := (dump, pack, [])
  let (dump, pack, ipExisted) :=
    if record.ip4.length > 0 then
      record.ip4.foldl (fun acc i =>
        let pack := acc.2.1.InsertIP4 i
        (acc.1.InsertToIndexIP4 i.ip4 pack.id, pack, i.ip4 :: acc.2.2)) start
    else start
  let it : SliceIter IP4 := ⟨pack.ip4, pack.ip4.length⟩
  let (dump, it) := (List.range it.curLen).foldl
    (fun (acc : DumpState × SliceIter IP4) n =>
      let e := acc.2.backing.getD n default
      if e.ip4 ∈ ipExisted then acc
      else (acc.1.RemoveFromIndexIP4 e.ip4 pack.id, goRemove acc.2 e))
    (dump, it)
  (dump, { pack with ip4 := it.backing.take it.curLen })

/-- `EctractAndApplyUpdateIP6` — update path for IPv6; the existed journal is
keyed by the address bytes only. -/
def DumpState.EctractAndApplyUpdateIP6 (dump : DumpState) (record : Content)
    (pack : PackedContent) : DumpState × PackedContent :=
  let start : DumpState × PackedContent × List (List Nat) := (dump, pack, [])
  let (dump, pack, ipExisted) :=
    if record.ip6.length > 0 then
      record.ip6.foldl (fun acc i =>
        let pack := acc.2.1.InsertIP6 i
        (acc.1.InsertToIndexIP6 i.ip6 pack.id, pack, i.ip6 :: acc.2.2)) start
    else start
  let it : SliceIter IP6 := ⟨pack.ip6, pack.ip6.length⟩
  let (dump, it) := (List.range it.curLen).foldl
    (fun (acc : DumpState × SliceIter IP6) n =>
      let e := acc.2.backing.getD n default
      if e.ip6 ∈ ipExisted then acc
      else (acc.1.RemoveFromIndexIP6 e.ip6 pack.id, goRemove acc.2 e))
    (dump, it)
  (dump, { pack with ip6 := it.backing.take it.curLen })

/-- `EctractAndApplyUpdateSubnet4` — update path for IPv4 subnets; the
existed journal is keyed by the subnet string only. -/
def DumpState.EctractAndApplyUpdateSubnet4 (dump : DumpState) (record : Content)
    (pack : PackedContent) : DumpState × PackedContent :=
  let start : DumpState × PackedContent × List String := (dump, pack, [])
  let (dump, pack, subnetExisted) :=
    if record.subnet4.length > 0 then
      record.subnet4.foldl (fun acc s =>
        let pack := acc.2.1.InsertSubnet4 s
        (acc.1.InsertToIndexSubnet4 s.subnet4 pack.id, pack, s.subnet4 :: acc.2.2)) start
    else start
  let it : SliceIter Subnet4 := ⟨pack.subnet4, pack.subnet4.length⟩
  let (dump, it) := (List.range it.curLen).foldl
    (fun (acc : DumpState × SliceIter Subnet4) n =>
      let e := acc.2.backing.getD n default
      if e.subnet4 ∈ subnetExisted then acc
      else (acc.1.RemoveFromSubnet4 e.subnet4 pack.id, goRemove acc.2 e))
    (dump, it)
  (dump, { pack with subnet4 := it.backing.take it.curLen })

/-- `EctractAndApplyUpdateSubnet6` — update path for IPv6 subnets: inserts go
to the IPv6-subnet index but stale values are removed from the IPv4-subnet
index (`RemoveFromSubnet4`), as in the source. -/
def DumpState.EctractAndApplyUpdateSubnet6 (dump : DumpState) (record : Content)
    (pack : PackedContent) : DumpState × PackedContent :=
  let start : DumpState × PackedContent × List String := (dump, pack, [])
  let (dump, pack, subnetExisted) :=
    if record.subnet6.length > 0 then
      record.subnet6.foldl (fun acc s =>
        let pack := acc.2.1.InsertSubnet6 s
        (acc.1.InsertToIndexSubnet6 s.subnet6 pack.id, pack, s.subnet6 :: acc.2.2)) start
    else start
  let it : SliceIter Subnet6 := ⟨pack.subnet6, pack.subnet6.length⟩
  let (dump, it) := (List.range it.curLen).foldl
    (fun (acc : DumpState × SliceIter Subnet6) n =>
      let e := acc.2.backing.getD n default
      if e.subnet6 ∈ subnetExisted then acc
      else (acc.1.RemoveFromSubnet4 e.subnet6 pack.id, goRemove acc.2 e))
    (dump, it)
  (dump, { pack with subnet6 := it.backing.take it.curLen })

/-- `EctractAndApplyUpdateDomain` — update path for domains; the existed
journal is keyed by the raw domain string only, the index by the normalized
one. -/
def DumpState.EctractAndApplyUpdateDomain (dump : DumpState) (record : Content)
    (pack : PackedContent) : DumpState × PackedContent :=
  let start : DumpState × PackedContent × List String := (dump, pack, [])
  let (dump, pack, domainExisted) :=
    if record.domain.length > 0 then
      record.domain.foldl (fun acc d =>
        let pack := acc.2.1.InsertDomain d
        (acc.1.InsertToIndexDomain (NormalizeDomain d.domain) pack.id, pack,
          d.domain :: acc.2.2)) start
    else start
  let it : SliceIter Domain := ⟨pack.domain, pack.domain.length⟩
  let (dump, it) := (List.range it.curLen).foldl
    (fun (acc : DumpState × SliceIter Domain) n =>
      let e := acc.2.backing.getD n default
      if e.domain ∈ domainExisted then acc
      else (acc.1.RemoveFromIndexDomain (NormalizeDomain e.domain) pack.id,
        goRemove acc.2 e))
    (dump, it)
  (dump, { pack with domain := it.backing.take it.curLen })

/-- `EctractAndApplyUpdateURL` — update path for URLs: insert and count HTTPS,
set the HTTPS counter and block type, then run the removal pass keyed on the
raw URL string. -/
def DumpState.EctractAndApplyUpdateURL (dump : DumpState) (record : Content)
    (pack : PackedContent) : DumpState × PackedContent × Content :=
  let start : DumpState × PackedContent × List String × Int := (dump, pack, [], 0)
  let (dump, pack, urlExisted, httpsB) :=
    if record.url.length > 0 then
      record.url.foldl (fun acc u =>
        let pack := acc.2.1.InsertURL u
        let nURL := NormalizeURL u.url
        let httpsB := if nURL.startsWith "https://" then acc.2.2.2 + 1 else acc.2.2.2
        (acc.1.InsertToIndexURL nURL pack.id, pack, u.url :: acc.2.2.1, httpsB)) start
    else start
  let record := { record with httpsBlock := httpsB }
  let pack := { pack with blockType := record.constructBlockType }
  let it : SliceIter URL := ⟨pack.url, pack.url.length⟩
  let (dump, it) := (List.range it.curLen).foldl
    (fun (acc : DumpState × SliceIter URL) n =>
      let e := acc.2.backing.getD n default
      if e.url ∈ urlExisted then acc
      else (acc.1.RemoveFromIndexURL (NormalizeURL e.url) pack.id, goRemove acc.2 e))
    (dump, it)
  (dump, { pack with url := it.backing.take it.curLen }, record)

/-- `EctractAndApplyUpdateDecision` — remove the old decision key, hash and
index the new one. -/
def DumpState.EctractAndApplyUpdateDecision (dump : DumpState) (record : Content)
    (pack : PackedContent) : DumpState × PackedContent :=
  let dump := dump.RemoveFromIndexDecision pack.decision pack.id
  let pack := { pack with decision := hashDecision record.decision }
  (dump.InsertToIndexDecision pack.decision pack.id, pack)

/-- `newPackedContent` — fresh packed entry with metadata only. -/
def newPackedContent (id : Int) (hash : Nat) (utime : Int) (payload : List Nat) :
    PackedContent :=
  { id := id, recordHash := hash, registryUpdateTime := utime, payload := payload }

/-- `NewPackedContent` — add path: create the fresh pack, apply all extract
steps and store it under the decoded record id.  Go stores the pointer first
and mutates it in place; since no extract step reads the entry map, storing
the final pack is equivalent.  `marshal` stands for `Content.Marshal`
(`encoding/json`). -/
def DumpState.NewPackedContent (dump : DumpState) (marshal : Content → List Nat)
    (record : Content) (updateTime : Int) : DumpState :=
  let contentID := record.id
  let fresh := newPackedContent record.id record.recordHash updateTime (marshal record)
  let (dump, fresh) := dump.ExtractAndApplyIP4 record fresh
  let (dump, fresh) := dump.ExtractAndApplyIP6 record fresh
  let (dump, fresh) := dump.ExtractAndApplySubnet4 record fresh
  let (dump, fresh) := dump.ExtractAndApplySubnet6 record fresh
  let (dump, fresh) := dump.ExtractAndApplyDomain record fresh
  let (dump, fresh, record) := dump.ExtractAndApplyURL record fresh
  let (dump, fresh) := dump.ExtractAndApplyDecision record fresh
  { dump with contentIdx := alInsert dump.contentIdx contentID fresh }

/-- `MergePackedContent` — update path: refresh hash, update time and payload
on the previous pack, then apply all update steps.  The mutated pack is
returned so the caller can store it back under its map key (Go mutates it
through the pointer held in the map). -/
def DumpState.MergePackedContent (dump : DumpState) (marshal : Content → List Nat)
    (record : Content) (prev : PackedContent) (updateTime : Int) :
    DumpState × PackedContent :=
  let prev := { prev with
    recordHash := record.recordHash
    registryUpdateTime := updateTime
    payload := marshal record }
  let (dump, prev) := dump.EctractAndApplyUpdateIP4 record prev
  let (dump, prev) := dump.EctractAndApplyUpdateIP6 record prev
  let (dump, prev) := dump.EctractAndApplyUpdateSubnet4 record prev
  let (dump, prev) := dump.EctractAndApplyUpdateSubnet6 record prev
  let (dump, prev) := dump.EctractAndApplyUpdateDomain record prev
  let (dump, prev, record) := dump.EctractAndApplyUpdateURL record prev
  let (dump, prev) := dump.EctractAndApplyUpdateDecision record prev
  (dump, prev)

/-- `SetContentUpdateTime` — the unchanged (touch) path.  The source assigns
`dump.utime` (the previous refresh's global time) and ignores the
`updateTime` argument; translated as written.  A missing id (a nil-pointer
panic in Go, never reached by `Parse`) is a no-op here. -/
def DumpState.SetContentUpdateTime (dump : DumpState) (id : Int)
    (updateTime : Int) : DumpState :=
  match List.lookup id dump.contentIdx with
  | none => dump
  | some p =>
    { dump with contentIdx :=
        alInsert dump.contentIdx id { p with registryUpdateTime := dump.utime } }

/-- Parse statistics (`ParseStatistics` in the source; only the fields the
core writes are kept). -/
structure ParseStatistics where
  count : Nat := 0
  addCount : Nat := 0
  updateCount : Nat := 0
  removeCount : Nat := 0
  maxIDSetLen : Nat := 0
  maxContentSize : Nat := 0
deriving DecidableEq, Repr, Inhabited

/-- One deleted entry's removals inside `purge`: drop the entry's values from
the indexes in source order (ip4, ip6, subnet6, subnet4, url, domain,
decision) and delete the entry from the map. -/
def DumpState.purgeEntry (dump : DumpState) (id : Int) (cont : PackedContent) :
    DumpState :=
  let dump := cont.ip4.foldl (fun d i => d.RemoveFromIndexIP4 i.ip4 cont.id) dump
  let dump := cont.ip6.foldl (fun d i => d.RemoveFromIndexIP6 i.ip6 cont.id) dump
  let dump := cont.subnet6.foldl
    (fun d s => d.RemoveFromIndexSubnet6 s.subnet6 cont.id) dump
  let dump := cont.subnet4.foldl (fun d s => d.RemoveFromSubnet4 s.subnet4 cont.id) dump
  let dump := cont.url.foldl
    (fun d u => d.RemoveFromIndexURL (NormalizeURL u.url) cont.id) dump
  let dump := cont.domain.foldl
    (fun d dom => d.RemoveFromIndexDomain (NormalizeDomain dom.domain) cont.id) dump
  let dump := dump.RemoveFromIndexDecision cont.decision cont.id
  { dump with contentIdx := alErase dump.contentIdx id }

/-- The iteration of `purge` over the entry map: entries whose id is in the
journal are kept; the rest are removed with all their index removals and
counted.  (Go ranges the map while deleting only the current key, so the
snapshot iteration is faithful.) -/
def purgeLoop (existed : List Int) :
    List (Int × PackedContent) → DumpState → ParseStatistics →
    DumpState × ParseStatistics
  | [], dump, stats => (dump, stats)
  | (id, cont) :: rest, dump, stats =>
    if id ∈ existed then purgeLoop existed rest dump stats
    else purgeLoop existed rest (dump.purgeEntry id cont)
      { stats with removeCount := stats.removeCount + 1 }

/-- `purge` — remove deleted records from the index (from the source). -/
def DumpState.purge (dump : DumpState) (existed : List Int)
    (stats : ParseStatistics) : DumpState × ParseStatistics :=
  purgeLoop existed dump.contentIdx dump stats

/-- `calcMaxEntityLen` — recompute the largest id-set size over the six
resource indexes (from the source). -/
def DumpState.calcMaxEntityLen (dump : DumpState) (stats : ParseStatistics) :
    ParseStatistics :=
  let m := dump.ip4Idx.foldl (fun m kv => if m < kv.2.length then kv.2.length else m) 0
  let m := dump.ip6Idx.foldl (fun m kv => if m < kv.2.length then kv.2.length else m) m
  let m := dump.subnet4Idx.foldl
    (fun m kv => if m < kv.2.length then kv.2.length else m) m
  let m := dump.subnet6Idx.foldl
    (fun m kv => if m < kv.2.length then kv.2.length else m) m
  let m := dump.urlIdx.foldl (fun m kv => if m < kv.2.length then kv.2.length else m) m
  let m := dump.domainIdx.foldl
    (fun m kv => if m < kv.2.length then kv.2.length else m) m
  { stats with maxIDSetLen := m }

/-- `Cleanup` — post-refresh sweep: purge entries absent from the journal,
recompute the max index set size and set the global update time. -/
def DumpState.Cleanup (dump : DumpState) (existed : List Int)
    (stats : ParseStatistics) (utime : Int) : DumpState × ParseStatistics :=
  let (dump, stats) := dump.purge existed stats
  let stats := dump.calcMaxEntityLen stats
  ({ dump with utime := utime }, stats)

/-- One XML attribute of a start element. -/
structure Attr where
  name : String
  value : String
deriving DecidableEq, Repr, Inhabited

/-- Decimal digit run to a number; `none` when empty or a non-digit occurs
(model of the digit scan inside `strconv.Atoi`). -/
def decDigits? (l : List Char) : Option Nat :=
  if l.isEmpty then none
  else l.foldl (fun acc c =>
    match acc with
    | none => none
    | some n => if c.isDigit then some (n * 10 + (c.toNat - 48)) else none)
    (some 0)

/-- Model of `strconv.Atoi`'s syntax handling: optional sign then decimal
digits; `none` on a syntax error (Go then reports the error and yields 0;
range clamping on overflow is not modelled). -/
def atoi (s : String) : Option Int :=
  match s.data with
  | [] => none
  | '+' :: rest => (decDigits? rest).map Int.ofNat
  | '-' :: rest => (decDigits? rest).map (fun n => -(n : Int))
  | l => (decDigits? l).map Int.ofNat

/-- `getContentId` — scan the attributes; every `id` attribute re-assigns the
id, a parse failure leaves Go's zero result; return the `int32` conversion
(from the source). -/
def getContentId (attrs : List Attr) : Int :=
  let id := attrs.foldl
    (fun id a => if a.name == "id" then (atoi a.value).getD 0 else id) 0
  toInt32 id

/-- One `<content>` element as the streaming parser sees it: the start
element's attributes and the captured raw bytes of
`<content>…</content>`. -/
structure DumpRec where
  attrs : List Attr := []
  buf : List Nat := []
deriving DecidableEq, Repr, Inhabited

/-- The journaled id of a record, as `Parse` computes it. -/
def DumpRec.rid (r : DumpRec) : Int := getContentId r.attrs

/-- `NewContent` — decode the captured bytes and stamp the record hash;
`decode` stands for `UnmarshalContent` over the raw bytes. -/
def NewContent (decode : List Nat → Option Content) (recordHash : Nat)
    (buf : List Nat) : Option Content :=
  (decode buf).map (fun c => { c with recordHash := recordHash })

/-- One `<content>` iteration of `Parse`: track the max content size, hash the
captured bytes, journal the id, then add, update or touch under the store
lock; decode errors skip the record (its stats stay untouched apart from the
total count). -/
def parseStep (decode : List Nat → Option Content) (marshal : Content → List Nat)
    (updTime : Int) (acc : DumpState × List Int × ParseStatistics) (r : DumpRec) :
    DumpState × List Int × ParseStatistics :=
  let (dump, journal, stats) := acc
  let id := getContentId r.attrs
  let stats := if stats.maxContentSize < r.buf.length then
      { stats with maxContentSize := r.buf.length }
    else stats
  let newRecordHash := fnv1a64 r.buf
  let prev? := List.lookup id dump.contentIdx
  let journal := if id ∈ journal then journal else id :: journal
  let (dump, stats) :=
    match prev? with
    | none =>
      match NewContent decode newRecordHash r.buf with
      | none => (dump, stats)
      | some newCont =>
        (dump.NewPackedContent marshal newCont updTime,
          { stats with addCount := stats.addCount + 1 })
    | some prevCont =>
      if prevCont.recordHash ≠ newRecordHash then
        match NewContent decode newRecordHash r.buf with
        | none => (dump, stats)
        | some newCont =>
          let (dump, merged) := dump.MergePackedContent marshal newCont prevCont updTime
          ({ dump with contentIdx := alInsert dump.contentIdx id merged },
            { stats with updateCount := stats.updateCount + 1 })
      else
        (dump.SetContentUpdateTime id updTime, stats)
  (dump, journal, { stats with count := stats.count + 1 })

/-- The whole refresh over a dump already tokenized into its `<content>`
records: run `parseStep` over each record with the `<register>` update time,
then `Cleanup` with the journal.  Returns the final store, the journal and
the statistics. -/
def ingest (decode : List Nat → Option Content) (marshal : Content → List Nat)
    (st0 : DumpState) (updTime : Int) (recs : List DumpRec) :
    DumpState × List Int × ParseStatistics :=
  let (dump, journal, stats) :=
    recs.foldl (parseStep decode marshal updTime) (st0, [], {})
  let (dump, stats) := dump.Cleanup journal stats updTime
  (dump, journal, stats)

/-! Basic association-list lemmas. -/

theorem lookup_cons {K V : Type} [BEq K] (k k' : K) (v : V) (rest : List (K × V)) :
    List.lookup k' ((k, v) :: rest) = if k' == k then some v else List.lookup k' rest := by
  cases h : k' == k <;> simp [List.lookup, h]

theorem lookup_alInsert {K V : Type} [BEq K] [LawfulBEq K] [DecidableEq K]
    (m : List (K × V)) (k k' : K) (v : V) :
    List.lookup k' (alInsert m k v) = if k' = k then some v else List.lookup k' m := by
  induction m with
  | nil => simp [alInsert, lookup_cons, beq_iff_eq]
  | cons kv rest ih =>
    rcases kv with ⟨k0, v0⟩
    by_cases h0 : k0 = k
    · subst h0
      by_cases h1 : k' = k0 <;>
        simp [alInsert, lookup_cons, beq_iff_eq, h1]
    · have hb : (k0 == k) = false := by
        rw [beq_eq_false_iff_ne]
        exact h0
      by_cases h1 : k' = k0
      · subst h1
        simp [alInsert, hb, lookup_cons, beq_iff_eq, h0]
      · simp [alInsert, hb, lookup_cons, beq_iff_eq, h1, ih]

theorem lookup_alErase {K V : Type} [BEq K] [LawfulBEq K] [DecidableEq K]
    (m : List (K × V)) (k k' : K) :
    List.lookup k' (alErase m k) = if k' = k then none else List.lookup k' m := by
  induction m with
  | nil => simp [alErase]
  | cons kv rest ih =>
    rcases kv with ⟨k0, v0⟩
    have ih' : List.lookup k' (List.filter (fun kv => kv.1 != k) rest) =
        if k' = k then none else List.lookup k' rest := by
      simpa [alErase] using ih
    by_cases h0 : k0 = k
    · have hb : ((k0, v0).1 != k) = false := by simp [h0]
      simp only [alErase, List.filter_cons, hb, Bool.false_eq_true, if_false]
      rw [ih']
      by_cases h1 : k' = k
      · simp [h1]
      · have h2 : k' ≠ k0 := fun hh => h1 (by rw [hh, h0])
        simp [h1, lookup_cons, beq_iff_eq, h2]
    · have hb : ((k0, v0).1 != k) = true := by simp [h0]
      simp only [alErase, List.filter_cons, hb, if_true]
      by_cases h1 : k' = k0
      · subst h1
        simp [lookup_cons, beq_iff_eq, h0]
      · simp [lookup_cons, beq_iff_eq, h1, ih']

theorem mem_alInsert {K V : Type} [BEq K] {m : List (K × V)} {k : K} {v : V}
    {p : K × V} (hp : p ∈ alInsert m k v) : p = (k, v) ∨ p ∈ m := by
  induction m with
  | nil => simpa [alInsert] using hp
  | cons kv rest ih =>
    by_cases h0 : kv.1 == k
    · rcases (by simpa [alInsert, h0] using hp : p = (k, v) ∨ p ∈ rest) with h | h
      · exact Or.inl h
      · exact Or.inr (List.mem_cons_of_mem _ h)
    · rcases (by simpa [alInsert, h0] using hp : p = kv ∨ p ∈ alInsert rest k v) with h | h
      · exact Or.inr (by simp [h])
      · rcases ih h with h | h
        · exact Or.inl h
        · exact Or.inr (List.mem_cons_of_mem _ h)

theorem mem_alErase {K V : Type} [BEq K] {m : List (K × V)} {k : K} {p : K × V}
    (hp : p ∈ alErase m k) : p ∈ m :=
  List.mem_of_mem_filter hp

theorem lookup_isSome_of_mem {K V : Type} [BEq K] [LawfulBEq K]
    {m : List (K × V)} {k : K} {v : V} (h : (k, v) ∈ m) :
    (List.lookup k m).isSome := by
  induction m with
  | nil => cases h
  | cons kv rest ih =>
    rcases kv with ⟨k0, v0⟩
    rcases List.mem_cons.mp h with h | h
    · cases h
      simp [lookup_cons]
    · by_cases h0 : k = k0 <;> simp [lookup_cons, h0, ih h]

theorem Add_ne_nil (l : ArrayIntSet) (id : Int) : l.Add id ≠ [] := by
  unfold ArrayIntSet.Add
  split
  · exact List.ne_nil_of_mem (by assumption)
  · simp

/-- Fold preservation: a projection untouched by every step is untouched by
the fold. -/
theorem foldl_proj {σ α γ : Type _} (f : σ → α → σ) (g : σ → γ)
    (hf : ∀ s a, g (f s a) = g s) :
    ∀ (l : List α) (s : σ), g (l.foldl f s) = g s := by
  intro l
  induction l with
  | nil => intro s; rfl
  | cons x xs ih => intro s; rw [List.foldl_cons, ih, hf]

/-! Concrete fixtures used by the evaluation theorems. -/

/-- Trivial payload encoder standing in for `Content.Marshal`. -/
def marshal0 : Content → List Nat := fun _ => []

/-- The store before any refresh. -/
def emptyDump : DumpState := {}

/-- A record whose only resource is one IPv6 subnet. -/
def c1Record : Content := { id := 7, subnet6 := [⟨"2001:db8::/32", 1⟩] }

/-- The store after adding `c1Record`. -/
def c1State : DumpState := emptyDump.NewPackedContent marshal0 c1Record 100

/-- Store holding entry 1 with the single IPv4 tuple (5, ts 1). -/
def c2Start : DumpState :=
  emptyDump.NewPackedContent marshal0 { id := 1, ip4 := [⟨5, 1⟩] } 10

/-- Entry 1 as stored in `c2Start`. -/
def c2Prev : PackedContent := (List.lookup 1 c2Start.contentIdx).getD default

/-- Updating entry 1 with a record whose IPv4 list is [(5, ts 2)]. -/
def c2Merged : DumpState × PackedContent :=
  c2Start.MergePackedContent marshal0
    { id := 1, ip4 := [⟨5, 2⟩], recordHash := 99 } c2Prev 20

/-- Store holding entry 1 with IPv4 tuples (1,0), (2,0), (3,0). -/
def c2bStart : DumpState :=
  emptyDump.NewPackedContent marshal0 { id := 1, ip4 := [⟨1, 0⟩, ⟨2, 0⟩, ⟨3, 0⟩] } 10

/-- Entry 1 as stored in `c2bStart`. -/
def c2bPrev : PackedContent := (List.lookup 1 c2bStart.contentIdx).getD default

/-- Updating entry 1 with a record keeping only (3,0). -/
def c2bMerged : DumpState × PackedContent :=
  c2bStart.MergePackedContent marshal0
    { id := 1, ip4 := [⟨3, 0⟩], recordHash := 99 } c2bPrev 20

/-- Store with previous-refresh time 10 and entry 1 stamped at time 5. -/
def c3State : DumpState :=
  { emptyDump with utime := 10, contentIdx := [(1, { id := 1, registryUpdateTime := 5 })] }

/-- Store after adding a record whose IPv4 list holds the same tuple twice. -/
def c7State : DumpState :=
  emptyDump.NewPackedContent marshal0 { id := 3, ip4 := [⟨5, 1⟩, ⟨5, 1⟩] } 0

/-- Sweeping the store `c1State` (entries {7}) with journal {9}. -/
def c4Swept : DumpState × ParseStatistics := c1State.purge [9] {}

/-- A concrete decoder: every byte string decodes to the record with id 1
(consistent with the id attribute of the `c5Recs` dump). -/
def dec0 : List Nat → Option Content := fun _ => some { id := 1 }

/-- A dump in which the same id 1 carries two different byte bodies. -/
def c5Recs : List DumpRec :=
  [{ attrs := [⟨"id", "1"⟩], buf := [0] }, { attrs := [⟨"id", "1"⟩], buf := [1] }]

/-- The store produced by a first ingest of `c5Recs`. -/
def c5Store : DumpState := (ingest dec0 marshal0 emptyDump 10 c5Recs).1

/-! Claim theorems: evaluation results and proved properties. -/

/-- C1: the add path routes IPv6-subnet values into the IPv4-subnet index.
Evaluated at a record with one `ipv6Subnet` value: after `NewPackedContent`
the value is absent from `subnet6Idx` and present in `subnet4Idx` (the claim
demands the opposite routing), because `ExtractAndApplySubnet6` calls
`InsertToIndexSubnet4`. -/
theorem subnet6AddGoesToSubnet4Idx :
    List.lookup "2001:db8::/32" c1State.subnet6Idx = none ∧
    List.lookup "2001:db8::/32" c1State.subnet4Idx = some [7] := by decide

/-- C2: the update path fails to remove old values absent from the new
record.  With old IPv4 list [(5,1)] and new record [(5,2)], the stale tuple
(5,1) stays in the entry list (the existed journal is keyed on the address
only); with old list [(1,0),(2,0),(3,0)] and new record [(3,0)], the tuple
(2,0) survives both the list and the IPv4 index (the removal pass iterates
the slice it is shifting in place), though the claim says both must be
removed. -/
theorem updateKeepsStaleValues :
    c2Merged.2.ip4 = [⟨5, 1⟩, ⟨5, 2⟩] ∧
    c2bMerged.2.ip4 = [⟨2, 0⟩, ⟨3, 0⟩] ∧
    List.lookup 2 c2bMerged.1.ip4Idx = some [1] := by decide

/-- C3: the touch path ignores the passed update time.  Starting from a
store whose previous global time is 10, `SetContentUpdateTime 1 20` stamps
entry 1 with 10 (the stored `utime`), not with the passed 20. -/
theorem touchUsesStoredUtime :
    (List.lookup 1 (c3State.SetContentUpdateTime 1 20).contentIdx).map
      (fun p => p.registryUpdateTime) = some 10 ∧ (10 : Int) ≠ 20 := by decide

/-- C4 counterexample: sweeping entries {7} with journal {9} leaves an empty
entry map — not equal to the journal {9} — and leaves the IPv4-subnet index
still referencing the deleted entry 7 under its IPv6-subnet value (the add
path had misrouted the insert), so neither "ids equal seen" nor "all
back-references removed" holds as claimed. -/
theorem sweepSeenMismatch :
    c4Swept.1.contentIdx = [] ∧
    List.lookup "2001:db8::/32" c4Swept.1.subnet4Idx = some [7] := by decide

/-- C5 counterexample: a dump whose two records share id 1 with different
bodies.  Re-ingesting the exact same records over the store produced by a
first ingest yields two updates, not zero: each pass flips entry 1 between
the two body hashes. -/
theorem reingestCountsUpdates :
    (ingest dec0 marshal0 c5Store 20 c5Recs).2.2.updateCount = 2 := by decide

/-- C7 counterexample: the add path stores a record's IPv4 list verbatim, so
a record carrying the tuple (5,1) twice produces an entry whose list holds
the duplicate, violating the claimed duplicate-freeness. -/
theorem addPathKeepsDuplicateTuples :
    (List.lookup 3 c7State.contentIdx).map (fun p => p.ip4) =
      some [⟨5, 1⟩, ⟨5, 1⟩] ∧
    ¬ (([⟨5, 1⟩, ⟨5, 1⟩] : List IP4).Nodup) := by decide

/-- C7 (amended): the update-path insert operations deduplicate — inserting
into a duplicate-free IPv4 or domain list keeps it duplicate-free (the add
path, by contrast, copies the incoming list verbatim). -/
theorem updateInsertPreservesNodup :
    (∀ (pack : PackedContent) (x : IP4),
      pack.ip4.Nodup → (pack.InsertIP4 x).ip4.Nodup) ∧
    (∀ (pack : PackedContent) (d : Domain),
      pack.domain.Nodup → (pack.InsertDomain d).domain.Nodup) := by
  constructor
  · intro pack x h
    by_cases hx : x ∈ pack.ip4
    · simpa [PackedContent.InsertIP4, hx] using h
    · simp only [PackedContent.InsertIP4, hx, if_false]
      simp [List.nodup_append, h, hx]
  · intro pack d h
    by_cases hd : d ∈ pack.domain
    · simpa [PackedContent.InsertDomain, hd] using h
    · simp only [PackedContent.InsertDomain, hd, if_false]
      simp [List.nodup_append, h, hd]

/-- C7 witness: the amended theorem applied at concrete lists. -/
theorem updateInsertPreservesNodupWitness :
    (({ ip4 := [⟨1, 0⟩] } : PackedContent).InsertIP4 ⟨2, 0⟩).ip4.Nodup ∧
    (({ domain := [⟨"a", 0⟩] } : PackedContent).InsertDomain ⟨"b", 0⟩).domain.Nodup :=
  ⟨updateInsertPreservesNodup.1 _ _ (by decide),
   updateInsertPreservesNodup.2 _ _ (by decide)⟩

/-- C8: inserting a resource tuple already present in the entry's list is a
no-op — the pack is returned unchanged (shown for the claim's two cited
operations, IPv4 and URL). -/
theorem insertExistingTupleNoop :
    (∀ (pack : PackedContent) (x : IP4), x ∈ pack.ip4 → pack.InsertIP4 x = pack) ∧
    (∀ (pack : PackedContent) (u : URL), u ∈ pack.url → pack.InsertURL u = pack) := by
  constructor
  · intro pack x h
    simp [PackedContent.InsertIP4, h]
  · intro pack u h
    simp [PackedContent.InsertURL, h]

/-- C8 witness: the theorem applied at a concrete pack and tuple. -/
theorem insertExistingTupleNoopWitness :
    ({ ip4 := [⟨5, 1⟩] } : PackedContent).InsertIP4 ⟨5, 1⟩ =
      { ip4 := [⟨5, 1⟩] } ∧
    ({ url := [⟨"u", 1⟩] } : PackedContent).InsertURL ⟨"u", 1⟩ =
      { url := [⟨"u", 1⟩] } :=
  ⟨insertExistingTupleNoop.1 _ _ (by decide), insertExistingTupleNoop.2 _ _ (by decide)⟩

/-- C9: the decision index deletes a key whose set empties on removal (so a
key holding exactly the removed id disappears), and both `Remove` and
`Insert` preserve the invariant that every stored set is non-empty. -/
theorem decisionIndexPruning :
    (∀ (a : DecisionSet) (k : Nat) (id : Int),
      List.lookup k a = some [id] → List.lookup k (a.Remove k id) = none) ∧
    (∀ (a : DecisionSet) (k : Nat) (id : Int), (∀ p ∈ a, p.2 ≠ []) →
      (∀ p ∈ a.Remove k id, p.2 ≠ []) ∧ (∀ p ∈ a.Insert k id, p.2 ≠ [])) := by
  constructor
  · intro a k id h
    unfold DecisionSet.Remove
    rw [h]
    dsimp only
    have hdel : ArrayIntSet.Del [id] id = [] := by simp [ArrayIntSet.Del]
    rw [hdel]
    simp [lookup_alErase]
  · intro a k id h
    constructor
    · intro p hp
      unfold DecisionSet.Remove at hp
      cases hm : List.lookup k a with
      | none =>
        rw [hm] at hp
        exact h p hp
      | some v =>
        rw [hm] at hp
        dsimp only at hp
        split at hp
        · exact h p (mem_alErase hp)
        · rcases mem_alInsert hp with h1 | h1
          · subst h1
            rename_i hl
            simpa using List.length_pos.mp (Nat.pos_of_ne_zero hl)
          · exact h p h1
    · intro p hp
      unfold DecisionSet.Insert at hp
      rcases mem_alInsert hp with h1 | h1
      · subst h1
        exact Add_ne_nil _ _
      · exact h p h1

/-- C9 witness: the pruning theorem applied at concrete decision sets. -/
theorem decisionIndexPruningWitness :
    List.lookup 5 (DecisionSet.Remove [(5, [2])] 5 2) = none ∧
    ((5, [2, 3]) : Nat × ArrayIntSet).2 ≠ [] :=
  ⟨decisionIndexPruning.1 [(5, [2])] 5 2 (by decide),
   (decisionIndexPruning.2 [(5, [2])] 5 3 (by decide)).2 (5, [2, 3]) (by decide)⟩

/-! Index-set lemmas used for the sweep. -/

/-- The id set an index stores at a key (empty when the key is absent). -/
def setAt {K : Type} [BEq K] (m : List (K × ArrayIntSet)) (k : K) : ArrayIntSet :=
  (List.lookup k m).getD []

theorem mem_of_lookup {K V : Type} [BEq K] [LawfulBEq K] {m : List (K × V)}
    {k : K} {v : V} (h : List.lookup k m = some v) : (k, v) ∈ m := by
  induction m with
  | nil => simp [List.lookup] at h
  | cons kv rest ih =>
    rcases kv with ⟨k0, v0⟩
    rw [lookup_cons] at h
    by_cases hb : k = k0
    · subst hb
      simp only [beq_self_eq_true, if_true, Option.some.injEq] at h
      subst h
      exact List.mem_cons_self _ _
    · have hf : (k == k0) = false := by
        rw [beq_eq_false_iff_ne]
        exact hb
      rw [hf] at h
      simp only [Bool.false_eq_true, if_false] at h
      exact List.mem_cons_of_mem _ (ih h)

theorem setAt_idxRemove_subset {K : Type} [BEq K] [LawfulBEq K] [DecidableEq K]
    (m : List (K × ArrayIntSet)) (k' k : K) (i x : Int)
    (hx : x ∈ setAt (idxRemove m k' i) k) : x ∈ setAt m k := by
  unfold idxRemove at hx
  cases hm : List.lookup k' m with
  | none =>
    rw [hm] at hx
    exact hx
  | some v =>
    rw [hm] at hx
    dsimp only at hx
    split at hx
    · unfold setAt at hx ⊢
      rw [lookup_alErase] at hx
      by_cases h1 : k = k'
      · simp [h1] at hx
      · rw [if_neg h1] at hx
        exact hx
    · unfold setAt at hx ⊢
      rw [lookup_alInsert] at hx
      by_cases h1 : k = k'
      · subst h1
        rw [if_pos rfl] at hx
        rw [hm]
        simp only [Option.getD_some] at hx ⊢
        simpa [ArrayIntSet.Del] using (List.mem_filter.mp hx).1
      · rw [if_neg h1] at hx
        exact hx

theorem idxRemove_not_mem_self {K : Type} [BEq K] [LawfulBEq K] [DecidableEq K]
    (m : List (K × ArrayIntSet)) (k : K) (i : Int) :
    i ∉ setAt (idxRemove m k i) k := by
  unfold idxRemove
  cases hm : List.lookup k m with
  | none =>
    unfold setAt
    rw [hm]
    simp
  | some v =>
    dsimp only
    split
    · unfold setAt
      rw [lookup_alErase, if_pos rfl]
      simp
    · unfold setAt
      rw [lookup_alInsert, if_pos rfl]
      simp [ArrayIntSet.Del, List.mem_filter]

/-- Fold of `idxRemove` over a list of keys with a fixed id. -/
def remAll {K : Type} [BEq K] (m : List (K × ArrayIntSet)) (ks : List K) (i : Int) :
    List (K × ArrayIntSet) :=
  ks.foldl (fun m k => idxRemove m k i) m

theorem remAll_cons {K : Type} [BEq K] (m : List (K × ArrayIntSet)) (k0 : K)
    (ks : List K) (i : Int) : remAll m (k0 :: ks) i = remAll (idxRemove m k0 i) ks i := rfl

theorem remAll_subset {K : Type} [BEq K] [LawfulBEq K] [DecidableEq K] :
    ∀ (ks : List K) (m : List (K × ArrayIntSet)) (i : Int) (k : K) (x : Int),
    x ∈ setAt (remAll m ks i) k → x ∈ setAt m k := by
  intro ks
  induction ks with
  | nil =>
    intro m i k x h
    exact h
  | cons k0 ks ih =>
    intro m i k x h
    rw [remAll_cons] at h
    exact setAt_idxRemove_subset m k0 k i x (ih _ _ _ _ h)

theorem remAll_not_mem {K : Type} [BEq K] [LawfulBEq K] [DecidableEq K] :
    ∀ (ks : List K) (m : List (K × ArrayIntSet)) (i : Int) (k : K),
    k ∈ ks → i ∉ setAt (remAll m ks i) k := by
  intro ks
  induction ks with
  | nil =>
    intro m i k h
    cases h
  | cons k0 ks ih =>
    intro m i k hk
    rcases List.mem_cons.mp hk with h | h
    · subst h
      intro hmem
      rw [remAll_cons] at hmem
      exact idxRemove_not_mem_self m k i (remAll_subset ks _ _ _ _ hmem)
    · intro hmem
      rw [remAll_cons] at hmem
      exact ih _ _ _ h hmem

theorem DecisionSet.Remove_eq_idxRemove (a : DecisionSet) (k : Nat) (i : Int) :
    DecisionSet.Remove a k i = idxRemove a k i := by
  cases hm : List.lookup k a <;> simp [DecisionSet.Remove, idxRemove, hm]

/-! Structural characterization of one purge step. -/

theorem foldRemIP4_eq (l : List IP4) (i : Int) :
    ∀ d : DumpState, l.foldl (fun d x => d.RemoveFromIndexIP4 x.ip4 i) d =
      { d with ip4Idx := remAll d.ip4Idx (l.map (fun x => x.ip4)) i } := by
  induction l with
  | nil => intro d; rfl
  | cons x l ih =>
    intro d
    rw [List.foldl_cons, ih]
    rfl

theorem foldRemIP6_eq (l : List IP6) (i : Int) :
    ∀ d : DumpState, l.foldl (fun d x => d.RemoveFromIndexIP6 x.ip6 i) d =
      { d with ip6Idx := remAll d.ip6Idx (l.map (fun x => x.ip6)) i } := by
  induction l with
  | nil => intro d; rfl
  | cons x l ih =>
    intro d
    rw [List.foldl_cons, ih]
    rfl

theorem foldRemSubnet6_eq (l : List Subnet6) (i : Int) :
    ∀ d : DumpState, l.foldl (fun d x => d.RemoveFromIndexSubnet6 x.subnet6 i) d =
      { d with subnet6Idx := remAll d.subnet6Idx (l.map (fun x => x.subnet6)) i } := by
  induction l with
  | nil => intro d; rfl
  | cons x l ih =>
    intro d
    rw [List.foldl_cons, ih]
    rfl

theorem foldRemSubnet4_eq (l : List Subnet4) (i : Int) :
    ∀ d : DumpState, l.foldl (fun d x => d.RemoveFromSubnet4 x.subnet4 i) d =
      { d with subnet4Idx := remAll d.subnet4Idx (l.map (fun x => x.subnet4)) i } := by
  induction l with
  | nil => intro d; rfl
  | cons x l ih =>
    intro d
    rw [List.foldl_cons, ih]
    rfl

theorem foldRemURL_eq (l : List URL) (i : Int) :
    ∀ d : DumpState, l.foldl (fun d u => d.RemoveFromIndexURL (NormalizeURL u.url) i) d =
      { d with urlIdx := remAll d.urlIdx (l.map (fun u => NormalizeURL u.url)) i } := by
  induction l with
  | nil => intro d; rfl
  | cons x l ih =>
    intro d
    rw [List.foldl_cons, ih]
    rfl

theorem foldRemDomain_eq (l : List Domain) (i : Int) :
    ∀ d : DumpState,
      l.foldl (fun d x => d.RemoveFromIndexDomain (NormalizeDomain x.domain) i) d =
      { d with domainIdx :=
          remAll d.domainIdx (l.map (fun x => NormalizeDomain x.domain)) i } := by
  induction l with
  | nil => intro d; rfl
  | cons x l ih =>
    intro d
    rw [List.foldl_cons, ih]
    rfl

theorem purgeEntry_eq (d : DumpState) (id : Int) (cont : PackedContent) :
    d.purgeEntry id cont =
      { d with
        ip4Idx := remAll d.ip4Idx (cont.ip4.map (fun x => x.ip4)) cont.id
        ip6Idx := remAll d.ip6Idx (cont.ip6.map (fun x => x.ip6)) cont.id
        subnet6Idx := remAll d.subnet6Idx (cont.subnet6.map (fun x => x.subnet6)) cont.id
        subnet4Idx := remAll d.subnet4Idx (cont.subnet4.map (fun x => x.subnet4)) cont.id
        urlIdx := remAll d.urlIdx (cont.url.map (fun u => NormalizeURL u.url)) cont.id
        domainIdx :=
          remAll d.domainIdx (cont.domain.map (fun x => NormalizeDomain x.domain)) cont.id
        decisionIdx := DecisionSet.Remove d.decisionIdx cont.decision cont.id
        contentIdx := alErase d.contentIdx id } := by
  unfold DumpState.purgeEntry
  dsimp only
  rw [foldRemIP4_eq, foldRemIP6_eq, foldRemSubnet6_eq, foldRemSubnet4_eq,
    foldRemURL_eq, foldRemDomain_eq]
  rfl

/-! Lemmas about the sweep loop. -/

theorem purgeLoop_lookup_in (seen : List Int) :
    ∀ (l : List (Int × PackedContent)) (d : DumpState) (s : ParseStatistics) (id : Int),
    id ∈ seen →
    List.lookup id (purgeLoop seen l d s).1.contentIdx = List.lookup id d.contentIdx := by
  intro l
  induction l with
  | nil =>
    intro d s id _
    rfl
  | cons p rest ih =>
    intro d s id h
    rcases p with ⟨id0, cont⟩
    unfold purgeLoop
    by_cases h0 : id0 ∈ seen
    · rw [if_pos h0]
      exact ih _ _ _ h
    · rw [if_neg h0]
      rw [ih _ _ _ h]
      have hne : id ≠ id0 := fun hh => h0 (hh ▸ h)
      simp [purgeEntry_eq, lookup_alErase, hne]

theorem purgeLoop_lookup_notin (seen : List Int) :
    ∀ (l : List (Int × PackedContent)) (d : DumpState) (s : ParseStatistics) (id : Int),
    id ∉ seen →
    (id ∈ l.map Prod.fst ∨ List.lookup id d.contentIdx = none) →
    List.lookup id (purgeLoop seen l d s).1.contentIdx = none := by
  intro l
  induction l with
  | nil =>
    intro d s id _ hcase
    rcases hcase with h | h
    · simp at h
    · exact h
  | cons p rest ih =>
    intro d s id hid hcase
    rcases p with ⟨id0, cont⟩
    unfold purgeLoop
    by_cases h0 : id0 ∈ seen
    · rw [if_pos h0]
      apply ih _ _ _ hid
      rcases hcase with h | h
      · left
        have hne : id ≠ id0 := fun hh => hid (hh ▸ h0)
        simpa [hne] using h
      · right
        exact h
    · rw [if_neg h0]
      apply ih _ _ _ hid
      by_cases h1 : id = id0
      · right
        subst h1
        simp [purgeEntry_eq, lookup_alErase]
      · rcases hcase with h | h
        · rcases (by simpa using h : id = id0 ∨ id ∈ rest.map Prod.fst) with h2 | h2
          · exact absurd h2 h1
          · left
            exact h2
        · right
          simp [purgeEntry_eq, lookup_alErase, h1, h]

theorem purgeLoop_ip4_subset (seen : List Int) :
    ∀ (l : List (Int × PackedContent)) (d : DumpState) (s : ParseStatistics)
      (k : Nat) (x : Int),
    x ∈ setAt (purgeLoop seen l d s).1.ip4Idx k → x ∈ setAt d.ip4Idx k := by
  intro l
  induction l with
  | nil =>
    intro d s k x h
    exact h
  | cons p rest ih =>
    intro d s k x h
    rcases p with ⟨id0, cont⟩
    unfold purgeLoop at h
    by_cases h0 : id0 ∈ seen
    · rw [if_pos h0] at h
      exact ih _ _ _ _ h
    · rw [if_neg h0] at h
      have h1 := ih _ _ _ _ h
      rw [purgeEntry_eq] at h1
      exact remAll_subset _ _ _ _ _ h1

theorem purgeLoop_ip6_subset (seen : List Int) :
    ∀ (l : List (Int × PackedContent)) (d : DumpState) (s : ParseStatistics)
      (k : List Nat) (x : Int),
    x ∈ setAt (purgeLoop seen l d s).1.ip6Idx k → x ∈ setAt d.ip6Idx k := by
  intro l
  induction l with
  | nil =>
    intro d s k x h
    exact h
  | cons p rest ih =>
    intro d s k x h
    rcases p with ⟨id0, cont⟩
    unfold purgeLoop at h
    by_cases h0 : id0 ∈ seen
    · rw [if_pos h0] at h
      exact ih _ _ _ _ h
    · rw [if_neg h0] at h
      have h1 := ih _ _ _ _ h
      rw [purgeEntry_eq] at h1
      exact remAll_subset _ _ _ _ _ h1

theorem purgeLoop_subnet6_subset (seen : List Int) :
    ∀ (l : List (Int × PackedContent)) (d : DumpState) (s : ParseStatistics)
      (k : String) (x : Int),
    x ∈ setAt (purgeLoop seen l d s).1.subnet6Idx k → x ∈ setAt d.subnet6Idx k := by
  intro l
  induction l with
  | nil =>
    intro d s k x h
    exact h
  | cons p rest ih =>
    intro d s k x h
    rcases p with ⟨id0, cont⟩
    unfold purgeLoop at h
    by_cases h0 : id0 ∈ seen
    · rw [if_pos h0] at h
      exact ih _ _ _ _ h
    · rw [if_neg h0] at h
      have h1 := ih _ _ _ _ h
      rw [purgeEntry_eq] at h1
      exact remAll_subset _ _ _ _ _ h1

theorem purgeLoop_subnet4_subset (seen : List Int) :
    ∀ (l : List (Int × PackedContent)) (d : DumpState) (s : ParseStatistics)
      (k : String) (x : Int),
    x ∈ setAt (purgeLoop seen l d s).1.subnet4Idx k → x ∈ setAt d.subnet4Idx k := by
  intro l
  induction l with
  | nil =>
    intro d s k x h
    exact h
  | cons p rest ih =>
    intro d s k x h
    rcases p with ⟨id0, cont⟩
    unfold purgeLoop at h
    by_cases h0 : id0 ∈ seen
    · rw [if_pos h0] at h
      exact ih _ _ _ _ h
    · rw [if_neg h0] at h
      have h1 := ih _ _ _ _ h
      rw [purgeEntry_eq] at h1
      exact remAll_subset _ _ _ _ _ h1

theorem purgeLoop_url_subset (seen : List Int) :
    ∀ (l : List (Int × PackedContent)) (d : DumpState) (s : ParseStatistics)
      (k : String) (x : Int),
    x ∈ setAt (purgeLoop seen l d s).1.urlIdx k → x ∈ setAt d.urlIdx k := by
  intro l
  induction l with
  | nil =>
    intro d s k x h
    exact h
  | cons p rest ih =>
    intro d s k x h
    rcases p with ⟨id0, cont⟩
    unfold purgeLoop at h
    by_cases h0 : id0 ∈ seen
    · rw [if_pos h0] at h
      exact ih _ _ _ _ h
    · rw [if_neg h0] at h
      have h1 := ih _ _ _ _ h
      rw [purgeEntry_eq] at h1
      exact remAll_subset _ _ _ _ _ h1

theorem purgeLoop_domain_subset (seen : List Int) :
    ∀ (l : List (Int × PackedContent)) (d : DumpState) (s : ParseStatistics)
      (k : String) (x : Int),
    x ∈ setAt (purgeLoop seen l d s).1.domainIdx k → x ∈ setAt d.domainIdx k := by
  intro l
  induction l with
  | nil =>
    intro d s k x h
    exact h
  | cons p rest ih =>
    intro d s k x h
    rcases p with ⟨id0, cont⟩
    unfold purgeLoop at h
    by_cases h0 : id0 ∈ seen
    · rw [if_pos h0] at h
      exact ih _ _ _ _ h
    · rw [if_neg h0] at h
      have h1 := ih _ _ _ _ h
      rw [purgeEntry_eq] at h1
      exact remAll_subset _ _ _ _ _ h1

theorem purgeLoop_decision_subset (seen : List Int) :
    ∀ (l : List (Int × PackedContent)) (d : DumpState) (s : ParseStatistics)
      (k : Nat) (x : Int),
    x ∈ setAt (purgeLoop seen l d s).1.decisionIdx k → x ∈ setAt d.decisionIdx k := by
  intro l
  induction l with
  | nil =>
    intro d s k x h
    exact h
  | cons p rest ih =>
    intro d s k x h
    rcases p with ⟨id0, cont⟩
    unfold purgeLoop at h
    by_cases h0 : id0 ∈ seen
    · rw [if_pos h0] at h
      exact ih _ _ _ _ h
    · rw [if_neg h0] at h
      have h1 := ih _ _ _ _ h
      rw [purgeEntry_eq] at h1
      rw [DecisionSet.Remove_eq_idxRemove] at h1
      exact setAt_idxRemove_subset _ _ _ _ _ h1

theorem purgeLoop_ip4_notmem (seen : List Int) :
    ∀ (l : List (Int × PackedContent)) (d : DumpState) (s : ParseStatistics)
      (id : Int) (cont : PackedContent),
    (id, cont) ∈ l → id ∉ seen → ∀ v ∈ cont.ip4,
    cont.id ∉ setAt (purgeLoop seen l d s).1.ip4Idx v.ip4 := by
  intro l
  induction l with
  | nil =>
    intro d s id cont h
    cases h
  | cons p rest ih =>
    intro d s id cont hmem hid v hv
    rcases p with ⟨id0, cont0⟩
    rcases List.mem_cons.mp hmem with h | h
    · rw [Prod.mk.injEq] at h
      obtain ⟨h1, h2⟩ := h
      subst h1
      subst h2
      unfold purgeLoop
      rw [if_neg hid]
      intro hx
      have hsub := purgeLoop_ip4_subset seen rest _ _ _ _ hx
      rw [purgeEntry_eq] at hsub
      exact remAll_not_mem _ _ _ _ (List.mem_map_of_mem _ hv) hsub
    · unfold purgeLoop
      by_cases h0 : id0 ∈ seen
      · rw [if_pos h0]
        exact ih _ _ _ _ h hid v hv
      · rw [if_neg h0]
        exact ih _ _ _ _ h hid v hv

theorem purgeLoop_ip6_notmem (seen : List Int) :
    ∀ (l : List (Int × PackedContent)) (d : DumpState) (s : ParseStatistics)
      (id : Int) (cont : PackedContent),
    (id, cont) ∈ l → id ∉ seen → ∀ v ∈ cont.ip6,
    cont.id ∉ setAt (purgeLoop seen l d s).1.ip6Idx v.ip6 := by
  intro l
  induction l with
  | nil =>
    intro d s id cont h
    cases h
  | cons p rest ih =>
    intro d s id cont hmem hid v hv
    rcases p with ⟨id0, cont0⟩
    rcases List.mem_cons.mp hmem with h | h
    · rw [Prod.mk.injEq] at h
      obtain ⟨h1, h2⟩ := h
      subst h1
      subst h2
      unfold purgeLoop
      rw [if_neg hid]
      intro hx
      have hsub := purgeLoop_ip6_subset seen rest _ _ _ _ hx
      rw [purgeEntry_eq] at hsub
      exact remAll_not_mem _ _ _ _ (List.mem_map_of_mem _ hv) hsub
    · unfold purgeLoop
      by_cases h0 : id0 ∈ seen
      · rw [if_pos h0]
        exact ih _ _ _ _ h hid v hv
      · rw [if_neg h0]
        exact ih _ _ _ _ h hid v hv

theorem purgeLoop_subnet6_notmem (seen : List Int) :
    ∀ (l : List (Int × PackedContent)) (d : DumpState) (s : ParseStatistics)
      (id : Int) (cont : PackedContent),
    (id, cont) ∈ l → id ∉ seen → ∀ v ∈ cont.subnet6,
    cont.id ∉ setAt (purgeLoop seen l d s).1.subnet6Idx v.subnet6 := by
  intro l
  induction l with
  | nil =>
    intro d s id cont h
    cases h
  | cons p rest ih =>
    intro d s id cont hmem hid v hv
    rcases p with ⟨id0, cont0⟩
    rcases List.mem_cons.mp hmem with h | h
    · rw [Prod.mk.injEq] at h
      obtain ⟨h1, h2⟩ := h
      subst h1
      subst h2
      unfold purgeLoop
      rw [if_neg hid]
      intro hx
      have hsub := purgeLoop_subnet6_subset seen rest _ _ _ _ hx
      rw [purgeEntry_eq] at hsub
      exact remAll_not_mem _ _ _ _ (List.mem_map_of_mem _ hv) hsub
    · unfold purgeLoop
      by_cases h0 : id0 ∈ seen
      · rw [if_pos h0]
        exact ih _ _ _ _ h hid v hv
      · rw [if_neg h0]
        exact ih _ _ _ _ h hid v hv

theorem purgeLoop_subnet4_notmem (seen : List Int) :
    ∀ (l : List (Int × PackedContent)) (d : DumpState) (s : ParseStatistics)
      (id : Int) (cont : PackedContent),
    (id, cont) ∈ l → id ∉ seen → ∀ v ∈ cont.subnet4,
    cont.id ∉ setAt (purgeLoop seen l d s).1.subnet4Idx v.subnet4 := by
  intro l
  induction l with
  | nil =>
    intro d s id cont h
    cases h
  | cons p rest ih =>
    intro d s id cont hmem hid v hv
    rcases p with ⟨id0, cont0⟩
    rcases List.mem_cons.mp hmem with h | h
    · rw [Prod.mk.injEq] at h
      obtain ⟨h1, h2⟩ := h
      subst h1
      subst h2
      unfold purgeLoop
      rw [if_neg hid]
      intro hx
      have hsub := purgeLoop_subnet4_subset seen rest _ _ _ _ hx
      rw [purgeEntry_eq] at hsub
      exact remAll_not_mem _ _ _ _ (List.mem_map_of_mem _ hv) hsub
    · unfold purgeLoop
      by_cases h0 : id0 ∈ seen
      · rw [if_pos h0]
        exact ih _ _ _ _ h hid v hv
      · rw [if_neg h0]
        exact ih _ _ _ _ h hid v hv

theorem purgeLoop_url_notmem (seen : List Int) :
    ∀ (l : List (Int × PackedContent)) (d : DumpState) (s : ParseStatistics)
      (id : Int) (cont : PackedContent),
    (id, cont) ∈ l → id ∉ seen → ∀ v ∈ cont.url,
    cont.id ∉ setAt (purgeLoop seen l d s).1.urlIdx (NormalizeURL v.url) := by
  intro l
  induction l with
  | nil =>
    intro d s id cont h
    cases h
  | cons p rest ih =>
    intro d s id cont hmem hid v hv
    rcases p with ⟨id0, cont0⟩
    rcases List.mem_cons.mp hmem with h | h
    · rw [Prod.mk.injEq] at h
      obtain ⟨h1, h2⟩ := h
      subst h1
      subst h2
      unfold purgeLoop
      rw [if_neg hid]
      intro hx
      have hsub := purgeLoop_url_subset seen rest _ _ _ _ hx
      rw [purgeEntry_eq] at hsub
      exact remAll_not_mem _ _ _ _ (List.mem_map_of_mem _ hv) hsub
    · unfold purgeLoop
      by_cases h0 : id0 ∈ seen
      · rw [if_pos h0]
        exact ih _ _ _ _ h hid v hv
      · rw [if_neg h0]
        exact ih _ _ _ _ h hid v hv

theorem purgeLoop_domain_notmem (seen : List Int) :
    ∀ (l : List (Int × PackedContent)) (d : DumpState) (s : ParseStatistics)
      (id : Int) (cont : PackedContent),
    (id, cont) ∈ l → id ∉ seen → ∀ v ∈ cont.domain,
    cont.id ∉ setAt (purgeLoop seen l d s).1.domainIdx (NormalizeDomain v.domain) := by
  intro l
  induction l with
  | nil =>
    intro d s id cont h
    cases h
  | cons p rest ih =>
    intro d s id cont hmem hid v hv
    rcases p with ⟨id0, cont0⟩
    rcases List.mem_cons.mp hmem with h | h
    · rw [Prod.mk.injEq] at h
      obtain ⟨h1, h2⟩ := h
      subst h1
      subst h2
      unfold purgeLoop
      rw [if_neg hid]
      intro hx
      have hsub := purgeLoop_domain_subset seen rest _ _ _ _ hx
      rw [purgeEntry_eq] at hsub
      exact remAll_not_mem _ _ _ _ (List.mem_map_of_mem _ hv) hsub
    · unfold purgeLoop
      by_cases h0 : id0 ∈ seen
      · rw [if_pos h0]
        exact ih _ _ _ _ h hid v hv
      · rw [if_neg h0]
        exact ih _ _ _ _ h hid v hv

theorem purgeLoop_decision_notmem (seen : List Int) :
    ∀ (l : List (Int × PackedContent)) (d : DumpState) (s : ParseStatistics)
      (id : Int) (cont : PackedContent),
    (id, cont) ∈ l → id ∉ seen →
    cont.id ∉ setAt (purgeLoop seen l d s).1.decisionIdx cont.decision := by
  intro l
  induction l with
  | nil =>
    intro d s id cont h
    cases h
  | cons p rest ih =>
    intro d s id cont hmem hid
    rcases p with ⟨id0, cont0⟩
    rcases List.mem_cons.mp hmem with h | h
    · rw [Prod.mk.injEq] at h
      obtain ⟨h1, h2⟩ := h
      subst h1
      subst h2
      unfold purgeLoop
      rw [if_neg hid]
      intro hx
      have hsub := purgeLoop_decision_subset seen rest _ _ _ _ hx
      rw [purgeEntry_eq] at hsub
      rw [DecisionSet.Remove_eq_idxRemove] at hsub
      exact idxRemove_not_mem_self _ _ _ hsub
    · unfold purgeLoop
      by_cases h0 : id0 ∈ seen
      · rw [if_pos h0]
        exact ih _ _ _ _ h hid
      · rw [if_neg h0]
        exact ih _ _ _ _ h hid

/-- C4 (amended): after the sweep with journal `seen`, the entry map holds
exactly the pre-sweep entries whose id is in `seen`, each unchanged; ids in
`seen` that were not in the store stay absent (so the id set is the
intersection, equal to `seen` only when every seen id was present); and for
every swept entry, its id is removed from the decision index at its decision
hash and from each resource index at each listed value under the routing the
remove calls use (IPv6-subnet values from the IPv6-subnet index). -/
theorem purgeSweepSpec (d : DumpState) (seen : List Int) (s : ParseStatistics) :
    (∀ id : Int, id ∈ seen →
      List.lookup id (d.purge seen s).1.contentIdx = List.lookup id d.contentIdx) ∧
    (∀ id : Int, id ∉ seen → List.lookup id (d.purge seen s).1.contentIdx = none) ∧
    (∀ (id : Int) (cont : PackedContent), (id, cont) ∈ d.contentIdx → id ∉ seen →
      (∀ v ∈ cont.ip4, cont.id ∉ setAt (d.purge seen s).1.ip4Idx v.ip4) ∧
      (∀ v ∈ cont.ip6, cont.id ∉ setAt (d.purge seen s).1.ip6Idx v.ip6) ∧
      (∀ v ∈ cont.subnet6, cont.id ∉ setAt (d.purge seen s).1.subnet6Idx v.subnet6) ∧
      (∀ v ∈ cont.subnet4, cont.id ∉ setAt (d.purge seen s).1.subnet4Idx v.subnet4) ∧
      (∀ v ∈ cont.url,
        cont.id ∉ setAt (d.purge seen s).1.urlIdx (NormalizeURL v.url)) ∧
      (∀ v ∈ cont.domain,
        cont.id ∉ setAt (d.purge seen s).1.domainIdx (NormalizeDomain v.domain)) ∧
      cont.id ∉ setAt (d.purge seen s).1.decisionIdx cont.decision) := by
  unfold DumpState.purge
  refine ⟨fun id h => purgeLoop_lookup_in seen _ _ _ _ h, fun id h => ?_, ?_⟩
  · apply purgeLoop_lookup_notin seen _ _ _ _ h
    cases hm : List.lookup id d.contentIdx with
    | none =>
      right
      rfl
    | some v =>
      left
      exact List.mem_map_of_mem Prod.fst (mem_of_lookup hm)
  · intro id cont hmem hid
    exact ⟨purgeLoop_ip4_notmem seen _ _ _ _ _ hmem hid,
      purgeLoop_ip6_notmem seen _ _ _ _ _ hmem hid,
      purgeLoop_subnet6_notmem seen _ _ _ _ _ hmem hid,
      purgeLoop_subnet4_notmem seen _ _ _ _ _ hmem hid,
      purgeLoop_url_notmem seen _ _ _ _ _ hmem hid,
      purgeLoop_domain_notmem seen _ _ _ _ _ hmem hid,
      purgeLoop_decision_notmem seen _ _ _ _ _ hmem hid⟩

/-- Store with one entry id 2 listing IPv4 (9,0), used by the C4 witness. -/
def c4wStore : DumpState :=
  emptyDump.NewPackedContent marshal0 { id := 2, ip4 := [⟨9, 0⟩] } 5

/-- C4 witness: the sweep theorem applied to a concrete store with journal
{3}: entry 2 is removed, its IPv4 back-reference is gone, and the absent id
3 stays absent. -/
theorem purgeSweepSpecWitness :
    List.lookup 3 (c4wStore.purge [3] {}).1.contentIdx =
      List.lookup 3 c4wStore.contentIdx ∧
    List.lookup 2 (c4wStore.purge [3] {}).1.contentIdx = none ∧
    ((List.lookup 2 c4wStore.contentIdx).getD default).id ∉
      setAt (c4wStore.purge [3] {}).1.ip4Idx 9 :=
  ⟨(purgeSweepSpec c4wStore [3] {}).1 3 (by decide),
   (purgeSweepSpec c4wStore [3] {}).2.1 2 (by decide),
   ((purgeSweepSpec c4wStore [3] {}).2.2 2
     ((List.lookup 2 c4wStore.contentIdx).getD default) (by decide) (by decide)).1
     ⟨9, 0⟩ (by decide)⟩

/-! Invariants of the add- and update-path apply functions: none of them
touches the entry map, and none changes the pack's record hash. -/

theorem InsertIP4_recordHash (pack : PackedContent) (x : IP4) :
    (pack.InsertIP4 x).recordHash = pack.recordHash := by
  unfold PackedContent.InsertIP4
  split <;> rfl

theorem InsertIP6_recordHash (pack : PackedContent) (x : IP6) :
    (pack.InsertIP6 x).recordHash = pack.recordHash := by
  unfold PackedContent.InsertIP6
  split <;> rfl

theorem InsertSubnet4_recordHash (pack : PackedContent) (x : Subnet4) :
    (pack.InsertSubnet4 x).recordHash = pack.recordHash := by
  unfold PackedContent.InsertSubnet4
  split <;> rfl

theorem InsertSubnet6_recordHash (pack : PackedContent) (x : Subnet6) :
    (pack.InsertSubnet6 x).recordHash = pack.recordHash := by
  unfold PackedContent.InsertSubnet6
  split <;> rfl

theorem InsertDomain_recordHash (pack : PackedContent) (x : Domain) :
    (pack.InsertDomain x).recordHash = pack.recordHash := by
  unfold PackedContent.InsertDomain
  split <;> rfl

theorem InsertURL_recordHash (pack : PackedContent) (x : URL) :
    (pack.InsertURL x).recordHash = pack.recordHash := by
  unfold PackedContent.InsertURL
  split <;> rfl

theorem extractIP4_contentIdx (d : DumpState) (record : Content) (pack : PackedContent) :
    (d.ExtractAndApplyIP4 record pack).1.contentIdx = d.contentIdx := by
  unfold DumpState.ExtractAndApplyIP4
  dsimp only
  split
  · refine foldl_proj _ (fun s : DumpState => s.contentIdx) ?_ _ _
    intro s a
    rfl
  · rfl

theorem extractIP4_recordHash (d : DumpState) (record : Content) (pack : PackedContent) :
    (d.ExtractAndApplyIP4 record pack).2.recordHash = pack.recordHash := by
  unfold DumpState.ExtractAndApplyIP4
  dsimp only
  split <;> rfl

theorem extractIP6_contentIdx (d : DumpState) (record : Content) (pack : PackedContent) :
    (d.ExtractAndApplyIP6 record pack).1.contentIdx = d.contentIdx := by
  unfold DumpState.ExtractAndApplyIP6
  dsimp only
  split
  · refine foldl_proj _ (fun s : DumpState => s.contentIdx) ?_ _ _
    intro s a
    rfl
  · rfl

theorem extractIP6_recordHash (d : DumpState) (record : Content) (pack : PackedContent) :
    (d.ExtractAndApplyIP6 record pack).2.recordHash = pack.recordHash := by
  unfold DumpState.ExtractAndApplyIP6
  dsimp only
  split <;> rfl

theorem extractSubnet4_contentIdx (d : DumpState) (record : Content)
    (pack : PackedContent) :
    (d.ExtractAndApplySubnet4 record pack).1.contentIdx = d.contentIdx := by
  unfold DumpState.ExtractAndApplySubnet4
  dsimp only
  split
  · refine foldl_proj _ (fun s : DumpState => s.contentIdx) ?_ _ _
    intro s a
    rfl
  · rfl

theorem extractSubnet4_recordHash (d : DumpState) (record : Content)
    (pack : PackedContent) :
    (d.ExtractAndApplySubnet4 record pack).2.recordHash = pack.recordHash := by
  unfold DumpState.ExtractAndApplySubnet4
  dsimp only
  split <;> rfl

theorem extractSubnet6_contentIdx (d : DumpState) (record : Content)
    (pack : PackedContent) :
    (d.ExtractAndApplySubnet6 record pack).1.contentIdx = d.contentIdx := by
  unfold DumpState.ExtractAndApplySubnet6
  dsimp only
  split
  · refine foldl_proj _ (fun s : DumpState => s.contentIdx) ?_ _ _
    intro s a
    rfl
  · rfl

theorem extractSubnet6_recordHash (d : DumpState) (record : Content)
    (pack : PackedContent) :
    (d.ExtractAndApplySubnet6 record pack).2.recordHash = pack.recordHash := by
  unfold DumpState.ExtractAndApplySubnet6
  dsimp only
  split <;> rfl

theorem extractDomain_contentIdx (d : DumpState) (record : Content)
    (pack : PackedContent) :
    (d.ExtractAndApplyDomain record pack).1.contentIdx = d.contentIdx := by
  unfold DumpState.ExtractAndApplyDomain
  dsimp only
  split
  · refine foldl_proj _ (fun s : DumpState => s.contentIdx) ?_ _ _
    intro s a
    rfl
  · rfl

theorem extractDomain_recordHash (d : DumpState) (record : Content)
    (pack : PackedContent) :
    (d.ExtractAndApplyDomain record pack).2.recordHash = pack.recordHash := by
  unfold DumpState.ExtractAndApplyDomain
  dsimp only
  split <;> rfl

theorem extractURL_contentIdx (d : DumpState) (record : Content) (pack : PackedContent) :
    (d.ExtractAndApplyURL record pack).1.contentIdx = d.contentIdx := by
  unfold DumpState.ExtractAndApplyURL
  dsimp only
  split
  · refine foldl_proj _ (fun s : DumpState × Content => s.1.contentIdx) ?_ _ _
    intro s a
    rfl
  · rfl

theorem extractURL_recordHash (d : DumpState) (record : Content) (pack : PackedContent) :
    (d.ExtractAndApplyURL record pack).2.1.recordHash = pack.recordHash := by
  unfold DumpState.ExtractAndApplyURL
  dsimp only
  split <;> rfl

theorem extractDecision_contentIdx (d : DumpState) (record : Content)
    (pack : PackedContent) :
    (d.ExtractAndApplyDecision record pack).1.contentIdx = d.contentIdx := rfl

theorem extractDecision_recordHash (d : DumpState) (record : Content)
    (pack : PackedContent) :
    (d.ExtractAndApplyDecision record pack).2.recordHash = pack.recordHash := rfl

theorem updIP4_contentIdx (d : DumpState) (record : Content) (pack : PackedContent) :
    (d.EctractAndApplyUpdateIP4 record pack).1.contentIdx = d.contentIdx := by
  unfold DumpState.EctractAndApplyUpdateIP4
  dsimp only
  split
  · refine Eq.trans
      (foldl_proj _ (fun s : DumpState × SliceIter IP4 => s.1.contentIdx) ?_ _ _) ?_
    · intro s a
      dsimp only
      split <;> rfl
    · refine foldl_proj _
        (fun s : DumpState × PackedContent × List Nat => s.1.contentIdx) ?_ _ _
      intro s a
      rfl
  · refine foldl_proj _ (fun s : DumpState × SliceIter IP4 => s.1.contentIdx) ?_ _ _
    intro s a
    dsimp only
    split <;> rfl

theorem updIP4_recordHash (d : DumpState) (record : Content) (pack : PackedContent) :
    (d.EctractAndApplyUpdateIP4 record pack).2.recordHash = pack.recordHash := by
  unfold DumpState.EctractAndApplyUpdateIP4
  dsimp only
  split
  · refine foldl_proj _
      (fun s : DumpState × PackedContent × List Nat => s.2.1.recordHash) ?_ _ _
    intro s a
    dsimp only
    rw [InsertIP4_recordHash]
  · rfl

theorem updIP6_contentIdx (d : DumpState) (record : Content) (pack : PackedContent) :
    (d.EctractAndApplyUpdateIP6 record pack).1.contentIdx = d.contentIdx := by
  unfold DumpState.EctractAndApplyUpdateIP6
  dsimp only
  split
  · refine Eq.trans
      (foldl_proj _ (fun s : DumpState × SliceIter IP6 => s.1.contentIdx) ?_ _ _) ?_
    · intro s a
      dsimp only
      split <;> rfl
    · refine foldl_proj _
        (fun s : DumpState × PackedContent × List (List Nat) => s.1.contentIdx) ?_ _ _
      intro s a
      rfl
  · refine foldl_proj _ (fun s : DumpState × SliceIter IP6 => s.1.contentIdx) ?_ _ _
    intro s a
    dsimp only
    split <;> rfl

theorem updIP6_recordHash (d : DumpState) (record : Content) (pack : PackedContent) :
    (d.EctractAndApplyUpdateIP6 record pack).2.recordHash = pack.recordHash := by
  unfold DumpState.EctractAndApplyUpdateIP6
  dsimp only
  split
  · refine foldl_proj _
      (fun s : DumpState × PackedContent × List (List Nat) => s.2.1.recordHash) ?_ _ _
    intro s a
    dsimp only
    rw [InsertIP6_recordHash]
  · rfl

theorem updSubnet4_contentIdx (d : DumpState) (record : Content) (pack : PackedContent) :
    (d.EctractAndApplyUpdateSubnet4 record pack).1.contentIdx = d.contentIdx := by
  unfold DumpState.EctractAndApplyUpdateSubnet4
  dsimp only
  split
  · refine Eq.trans
      (foldl_proj _ (fun s : DumpState × SliceIter Subnet4 => s.1.contentIdx) ?_ _ _) ?_
    · intro s a
      dsimp only
      split <;> rfl
    · refine foldl_proj _
        (fun s : DumpState × PackedContent × List String => s.1.contentIdx) ?_ _ _
      intro s a
      rfl
  · refine foldl_proj _ (fun s : DumpState × SliceIter Subnet4 => s.1.contentIdx) ?_ _ _
    intro s a
    dsimp only
    split <;> rfl

theorem updSubnet4_recordHash (d : DumpState) (record : Content) (pack : PackedContent) :
    (d.EctractAndApplyUpdateSubnet4 record pack).2.recordHash = pack.recordHash := by
  unfold DumpState.EctractAndApplyUpdateSubnet4
  dsimp only
  split
  · refine foldl_proj _
      (fun s : DumpState × PackedContent × List String => s.2.1.recordHash) ?_ _ _
    intro s a
    dsimp only
    rw [InsertSubnet4_recordHash]
  · rfl

theorem updSubnet6_contentIdx (d : DumpState) (record : Content) (pack : PackedContent) :
    (d.EctractAndApplyUpdateSubnet6 record pack).1.contentIdx = d.contentIdx := by
  unfold DumpState.EctractAndApplyUpdateSubnet6
  dsimp only
  split
  · refine Eq.trans
      (foldl_proj _ (fun s : DumpState × SliceIter Subnet6 => s.1.contentIdx) ?_ _ _) ?_
    · intro s a
      dsimp only
      split <;> rfl
    · refine foldl_proj _
        (fun s : DumpState × PackedContent × List String => s.1.contentIdx) ?_ _ _
      intro s a
      rfl
  · refine foldl_proj _ (fun s : DumpState × SliceIter Subnet6 => s.1.contentIdx) ?_ _ _
    intro s a
    dsimp only
    split <;> rfl

theorem updSubnet6_recordHash (d : DumpState) (record : Content) (pack : PackedContent) :
    (d.EctractAndApplyUpdateSubnet6 record pack).2.recordHash = pack.recordHash := by
  unfold DumpState.EctractAndApplyUpdateSubnet6
  dsimp only
  split
  · refine foldl_proj _
      (fun s : DumpState × PackedContent × List String => s.2.1.recordHash) ?_ _ _
    intro s a
    dsimp only
    rw [InsertSubnet6_recordHash]
  · rfl

theorem updDomain_contentIdx (d : DumpState) (record : Content) (pack : PackedContent) :
    (d.EctractAndApplyUpdateDomain record pack).1.contentIdx = d.contentIdx := by
  unfold DumpState.EctractAndApplyUpdateDomain
  dsimp only
  split
  · refine Eq.trans
      (foldl_proj _ (fun s : DumpState × SliceIter Domain => s.1.contentIdx) ?_ _ _) ?_
    · intro s a
      dsimp only
      split <;> rfl
    · refine foldl_proj _
        (fun s : DumpState × PackedContent × List String => s.1.contentIdx) ?_ _ _
      intro s a
      rfl
  · refine foldl_proj _ (fun s : DumpState × SliceIter Domain => s.1.contentIdx) ?_ _ _
    intro s a
    dsimp only
    split <;> rfl

theorem updDomain_recordHash (d : DumpState) (record : Content) (pack : PackedContent) :
    (d.EctractAndApplyUpdateDomain record pack).2.recordHash = pack.recordHash := by
  unfold DumpState.EctractAndApplyUpdateDomain
  dsimp only
  split
  · refine foldl_proj _
      (fun s : DumpState × PackedContent × List String => s.2.1.recordHash) ?_ _ _
    intro s a
    dsimp only
    rw [InsertDomain_recordHash]
  · rfl

theorem updURL_contentIdx (d : DumpState) (record : Content) (pack : PackedContent) :
    (d.EctractAndApplyUpdateURL record pack).1.contentIdx = d.contentIdx := by
  unfold DumpState.EctractAndApplyUpdateURL
  dsimp only
  split
  · refine Eq.trans
      (foldl_proj _ (fun s : DumpState × SliceIter URL => s.1.contentIdx) ?_ _ _) ?_
    · intro s a
      dsimp only
      split <;> rfl
    · refine foldl_proj _
        (fun s : DumpState × PackedContent × List String × Int => s.1.contentIdx) ?_ _ _
      intro s a
      rfl
  · refine foldl_proj _ (fun s : DumpState × SliceIter URL => s.1.contentIdx) ?_ _ _
    intro s a
    dsimp only
    split <;> rfl

theorem updURL_recordHash (d : DumpState) (record : Content) (pack : PackedContent) :
    (d.EctractAndApplyUpdateURL record pack).2.1.recordHash = pack.recordHash := by
  unfold DumpState.EctractAndApplyUpdateURL
  dsimp only
  split
  · refine foldl_proj _
      (fun s : DumpState × PackedContent × List String × Int => s.2.1.recordHash) ?_ _ _
    intro s a
    dsimp only
    rw [InsertURL_recordHash]
  · rfl

theorem updDecision_contentIdx (d : DumpState) (record : Content) (pack : PackedContent) :
    (d.EctractAndApplyUpdateDecision record pack).1.contentIdx = d.contentIdx := rfl

theorem updDecision_recordHash (d : DumpState) (record : Content) (pack : PackedContent) :
    (d.EctractAndApplyUpdateDecision record pack).2.recordHash = pack.recordHash := rfl

theorem merge_contentIdx (d : DumpState) (marshal : Content → List Nat)
    (record : Content) (prev : PackedContent) (t : Int) :
    (d.MergePackedContent marshal record prev t).1.contentIdx = d.contentIdx := by
  unfold DumpState.MergePackedContent
  dsimp only
  rw [updDecision_contentIdx, updURL_contentIdx, updDomain_contentIdx,
    updSubnet6_contentIdx, updSubnet4_contentIdx, updIP6_contentIdx, updIP4_contentIdx]

theorem merge_recordHash (d : DumpState) (marshal : Content → List Nat)
    (record : Content) (prev : PackedContent) (t : Int) :
    (d.MergePackedContent marshal record prev t).2.recordHash = record.recordHash := by
  unfold DumpState.MergePackedContent
  dsimp only
  rw [updDecision_recordHash, updURL_recordHash, updDomain_recordHash,
    updSubnet6_recordHash, updSubnet4_recordHash, updIP6_recordHash, updIP4_recordHash]

theorem NewPackedContent_lookup_other (d : DumpState) (marshal : Content → List Nat)
    (record : Content) (t : Int) (id : Int) (hne : id ≠ record.id) :
    List.lookup id (d.NewPackedContent marshal record t).contentIdx =
      List.lookup id d.contentIdx := by
  unfold DumpState.NewPackedContent
  dsimp only
  rw [lookup_alInsert, if_neg hne]
  rw [extractDecision_contentIdx, extractURL_contentIdx, extractDomain_contentIdx,
    extractSubnet6_contentIdx, extractSubnet4_contentIdx, extractIP6_contentIdx,
    extractIP4_contentIdx]

theorem NewPackedContent_lookup_self (d : DumpState) (marshal : Content → List Nat)
    (record : Content) (t : Int) :
    ∃ q : PackedContent,
      List.lookup record.id (d.NewPackedContent marshal record t).contentIdx = some q ∧
      q.recordHash = record.recordHash := by
  unfold DumpState.NewPackedContent
  dsimp only
  rw [lookup_alInsert, if_pos rfl]
  refine ⟨_, rfl, ?_⟩
  rw [extractDecision_recordHash, extractURL_recordHash, extractDomain_recordHash,
    extractSubnet6_recordHash, extractSubnet4_recordHash, extractIP6_recordHash,
    extractIP4_recordHash]
  rfl

theorem setCUT_lookup (d : DumpState) (id t id' : Int) :
    List.lookup id' (d.SetContentUpdateTime id t).contentIdx =
      if id' = id then
        (List.lookup id d.contentIdx).map
          (fun p => { p with registryUpdateTime := d.utime })
      else List.lookup id' d.contentIdx := by
  unfold DumpState.SetContentUpdateTime
  cases hm : List.lookup id d.contentIdx with
  | none =>
    dsimp only
    by_cases h : id' = id <;> simp [h, hm]
  | some p =>
    dsimp only
    rw [lookup_alInsert]
    by_cases h : id' = id <;> simp [h, hm]

/-! Branch equations for one `parseStep` iteration. -/

/-- The max-content-size statistics update done before hashing a record. -/
def bumpMax (s : ParseStatistics) (n : Nat) : ParseStatistics :=
  if s.maxContentSize < n then { s with maxContentSize := n } else s

theorem bumpMax_addCount (s : ParseStatistics) (n : Nat) :
    (bumpMax s n).addCount = s.addCount := by
  unfold bumpMax
  split <;> rfl

theorem bumpMax_updateCount (s : ParseStatistics) (n : Nat) :
    (bumpMax s n).updateCount = s.updateCount := by
  unfold bumpMax
  split <;> rfl

theorem bumpMax_removeCount (s : ParseStatistics) (n : Nat) :
    (bumpMax s n).removeCount = s.removeCount := by
  unfold bumpMax
  split <;> rfl

theorem parseStep_skip_add (decode : List Nat → Option Content)
    (marshal : Content → List Nat) (t : Int) (d : DumpState) (j : List Int)
    (s : ParseStatistics) (r : DumpRec)
    (hl : List.lookup r.rid d.contentIdx = none) (hd : decode r.buf = none) :
    parseStep decode marshal t (d, j, s) r =
      (d, if r.rid ∈ j then j else r.rid :: j,
        { bumpMax s r.buf.length with count := (bumpMax s r.buf.length).count + 1 }) := by
  have hl' : List.lookup (getContentId r.attrs) d.contentIdx = none := hl
  have hn : NewContent decode (fnv1a64 r.buf) r.buf = none := by
    simp [NewContent, hd]
  unfold parseStep bumpMax
  dsimp only
  rw [hl', hn]
  rfl

theorem parseStep_add (decode : List Nat → Option Content)
    (marshal : Content → List Nat) (t : Int) (d : DumpState) (j : List Int)
    (s : ParseStatistics) (r : DumpRec) (c : Content)
    (hl : List.lookup r.rid d.contentIdx = none) (hd : decode r.buf = some c) :
    parseStep decode marshal t (d, j, s) r =
      (d.NewPackedContent marshal { c with recordHash := fnv1a64 r.buf } t,
        if r.rid ∈ j then j else r.rid :: j,
        { bumpMax s r.buf.length with
          addCount := (bumpMax s r.buf.length).addCount + 1
          count := (bumpMax s r.buf.length).count + 1 }) := by
  have hl' : List.lookup (getContentId r.attrs) d.contentIdx = none := hl
  have hn : NewContent decode (fnv1a64 r.buf) r.buf =
      some { c with recordHash := fnv1a64 r.buf } := by
    simp [NewContent, hd]
  unfold parseStep bumpMax
  dsimp only
  rw [hl', hn]
  rfl

theorem parseStep_touch (decode : List Nat → Option Content)
    (marshal : Content → List Nat) (t : Int) (d : DumpState) (j : List Int)
    (s : ParseStatistics) (r : DumpRec) (p : PackedContent)
    (hl : List.lookup r.rid d.contentIdx = some p)
    (heq : p.recordHash = fnv1a64 r.buf) :
    parseStep decode marshal t (d, j, s) r =
      (d.SetContentUpdateTime r.rid t,
        if r.rid ∈ j then j else r.rid :: j,
        { bumpMax s r.buf.length with count := (bumpMax s r.buf.length).count + 1 }) := by
  have hl' : List.lookup (getContentId r.attrs) d.contentIdx = some p := hl
  unfold parseStep bumpMax
  dsimp only
  rw [hl']
  dsimp only
  rw [if_neg (not_not_intro heq)]
  rfl

theorem parseStep_skip_update (decode : List Nat → Option Content)
    (marshal : Content → List Nat) (t : Int) (d : DumpState) (j : List Int)
    (s : ParseStatistics) (r : DumpRec) (p : PackedContent)
    (hl : List.lookup r.rid d.contentIdx = some p)
    (hne : p.recordHash ≠ fnv1a64 r.buf) (hd : decode r.buf = none) :
    parseStep decode marshal t (d, j, s) r =
      (d, if r.rid ∈ j then j else r.rid :: j,
        { bumpMax s r.buf.length with count := (bumpMax s r.buf.length).count + 1 }) := by
  have hl' : List.lookup (getContentId r.attrs) d.contentIdx = some p := hl
  have hn : NewContent decode (fnv1a64 r.buf) r.buf = none := by
    simp [NewContent, hd]
  unfold parseStep bumpMax
  dsimp only
  rw [hl']
  dsimp only
  rw [if_pos hne, hn]
  rfl

theorem parseStep_merge (decode : List Nat → Option Content)
    (marshal : Content → List Nat) (t : Int) (d : DumpState) (j : List Int)
    (s : ParseStatistics) (r : DumpRec) (p : PackedContent) (c : Content)
    (hl : List.lookup r.rid d.contentIdx = some p)
    (hne : p.recordHash ≠ fnv1a64 r.buf) (hd : decode r.buf = some c) :
    parseStep decode marshal t (d, j, s) r =
      ({ (d.MergePackedContent marshal { c with recordHash := fnv1a64 r.buf } p t).1 with
          contentIdx := alInsert
            (d.MergePackedContent marshal
              { c with recordHash := fnv1a64 r.buf } p t).1.contentIdx
            r.rid
            (d.MergePackedContent marshal { c with recordHash := fnv1a64 r.buf } p t).2 },
        if r.rid ∈ j then j else r.rid :: j,
        { bumpMax s r.buf.length with
          updateCount := (bumpMax s r.buf.length).updateCount + 1
          count := (bumpMax s r.buf.length).count + 1 }) := by
  have hl' : List.lookup (getContentId r.attrs) d.contentIdx = some p := hl
  have hn : NewContent decode (fnv1a64 r.buf) r.buf =
      some { c with recordHash := fnv1a64 r.buf } := by
    simp [NewContent, hd]
  unfold parseStep bumpMax
  dsimp only
  rw [hl']
  dsimp only
  rw [if_pos hne, hn]
  rfl

/-- The record/store relation after a refresh: the entry stored at the
record's id (when any) carries the record's byte hash, unless the record does
not decode. -/
def Qpred (decode : List Nat → Option Content) (r : DumpRec) (d : DumpState) : Prop :=
  match List.lookup r.rid d.contentIdx with
  | some p => p.recordHash = fnv1a64 r.buf ∨ decode r.buf = none
  | none => decode r.buf = none

theorem Qpred_congr (decode : List Nat → Option Content) (r : DumpRec)
    (d1 d2 : DumpState)
    (h : List.lookup r.rid d1.contentIdx = List.lookup r.rid d2.contentIdx) :
    Qpred decode r d2 → Qpred decode r d1 := by
  unfold Qpred
  rw [h]
  exact id

theorem parseStep_journal (decode : List Nat → Option Content)
    (marshal : Content → List Nat) (t : Int) (d : DumpState) (j : List Int)
    (s : ParseStatistics) (r : DumpRec) :
    (parseStep decode marshal t (d, j, s) r).2.1 =
      if r.rid ∈ j then j else r.rid :: j := by
  cases hm : List.lookup r.rid d.contentIdx with
  | none =>
    cases hd : decode r.buf with
    | none => rw [parseStep_skip_add decode marshal t d j s r hm hd]
    | some c => rw [parseStep_add decode marshal t d j s r c hm hd]
  | some p =>
    by_cases heq : p.recordHash = fnv1a64 r.buf
    · rw [parseStep_touch decode marshal t d j s r p hm heq]
    · cases hd : decode r.buf with
      | none => rw [parseStep_skip_update decode marshal t d j s r p hm heq hd]
      | some c => rw [parseStep_merge decode marshal t d j s r p c hm heq hd]

theorem parseStep_lookup_other (decode : List Nat → Option Content)
    (marshal : Content → List Nat) (t : Int) (d : DumpState) (j : List Int)
    (s : ParseStatistics) (r : DumpRec) (id : Int)
    (hc : ∀ c, decode r.buf = some c → c.id = r.rid) (hne : id ≠ r.rid) :
    List.lookup id (parseStep decode marshal t (d, j, s) r).1.contentIdx =
      List.lookup id d.contentIdx := by
  cases hm : List.lookup r.rid d.contentIdx with
  | none =>
    cases hd : decode r.buf with
    | none => rw [parseStep_skip_add decode marshal t d j s r hm hd]
    | some c =>
      rw [parseStep_add decode marshal t d j s r c hm hd]
      exact NewPackedContent_lookup_other d marshal _ t id
        (fun hh => hne (hh.trans (hc c hd)))
  | some p =>
    by_cases heq : p.recordHash = fnv1a64 r.buf
    · rw [parseStep_touch decode marshal t d j s r p hm heq]
      dsimp only
      rw [setCUT_lookup, if_neg hne]
    · cases hd : decode r.buf with
      | none => rw [parseStep_skip_update decode marshal t d j s r p hm heq hd]
      | some c =>
        rw [parseStep_merge decode marshal t d j s r p c hm heq hd]
        dsimp only
        rw [lookup_alInsert, if_neg hne, merge_contentIdx]

theorem parseStep_counts_Q (decode : List Nat → Option Content)
    (marshal : Content → List Nat) (t : Int) (d : DumpState) (j : List Int)
    (s : ParseStatistics) (r : DumpRec) (hQ : Qpred decode r d) :
    (parseStep decode marshal t (d, j, s) r).2.2.addCount = s.addCount ∧
    (parseStep decode marshal t (d, j, s) r).2.2.updateCount = s.updateCount ∧
    (parseStep decode marshal t (d, j, s) r).2.2.removeCount = s.removeCount := by
  unfold Qpred at hQ
  cases hm : List.lookup r.rid d.contentIdx with
  | none =>
    rw [hm] at hQ
    have hd : decode r.buf = none := hQ
    rw [parseStep_skip_add decode marshal t d j s r hm hd]
    exact ⟨bumpMax_addCount _ _, bumpMax_updateCount _ _, bumpMax_removeCount _ _⟩
  | some p =>
    rw [hm] at hQ
    have hQ' : p.recordHash = fnv1a64 r.buf ∨ decode r.buf = none := hQ
    by_cases heq : p.recordHash = fnv1a64 r.buf
    · rw [parseStep_touch decode marshal t d j s r p hm heq]
      exact ⟨bumpMax_addCount _ _, bumpMax_updateCount _ _, bumpMax_removeCount _ _⟩
    · rw [parseStep_skip_update decode marshal t d j s r p hm heq (hQ'.resolve_left heq)]
      exact ⟨bumpMax_addCount _ _, bumpMax_updateCount _ _, bumpMax_removeCount _ _⟩

theorem parseStep_state_Q (decode : List Nat → Option Content)
    (marshal : Content → List Nat) (t : Int) (d : DumpState) (j : List Int)
    (s : ParseStatistics) (r : DumpRec) (hQ : Qpred decode r d) :
    (parseStep decode marshal t (d, j, s) r).1 = d ∨
    (parseStep decode marshal t (d, j, s) r).1 = d.SetContentUpdateTime r.rid t := by
  unfold Qpred at hQ
  cases hm : List.lookup r.rid d.contentIdx with
  | none =>
    rw [hm] at hQ
    have hd : decode r.buf = none := hQ
    left
    rw [parseStep_skip_add decode marshal t d j s r hm hd]
  | some p =>
    rw [hm] at hQ
    have hQ' : p.recordHash = fnv1a64 r.buf ∨ decode r.buf = none := hQ
    by_cases heq : p.recordHash = fnv1a64 r.buf
    · right
      rw [parseStep_touch decode marshal t d j s r p hm heq]
    · left
      rw [parseStep_skip_update decode marshal t d j s r p hm heq (hQ'.resolve_left heq)]

theorem parseStep_Q_self (decode : List Nat → Option Content)
    (marshal : Content → List Nat) (t : Int) (d : DumpState) (j : List Int)
    (s : ParseStatistics) (r : DumpRec)
    (hc : ∀ c, decode r.buf = some c → c.id = r.rid) :
    Qpred decode r (parseStep decode marshal t (d, j, s) r).1 := by
  unfold Qpred
  cases hm : List.lookup r.rid d.contentIdx with
  | none =>
    cases hd : decode r.buf with
    | none =>
      rw [parseStep_skip_add decode marshal t d j s r hm hd]
      dsimp only
      rw [hm]
    | some c =>
      rw [parseStep_add decode marshal t d j s r c hm hd]
      dsimp only
      obtain ⟨q, hq, hqh⟩ := NewPackedContent_lookup_self d marshal
        { c with recordHash := fnv1a64 r.buf } t
      have hq' : List.lookup r.rid
          (d.NewPackedContent marshal { c with recordHash := fnv1a64 r.buf } t).contentIdx =
          some q := by
        rw [← hc c hd]
        exact hq
      rw [hq']
      exact Or.inl hqh
  | some p =>
    by_cases heq : p.recordHash = fnv1a64 r.buf
    · rw [parseStep_touch decode marshal t d j s r p hm heq]
      dsimp only
      rw [setCUT_lookup, if_pos rfl, hm]
      exact Or.inl heq
    · cases hd : decode r.buf with
      | none =>
        rw [parseStep_skip_update decode marshal t d j s r p hm heq hd]
        dsimp only
        rw [hm]
        exact Or.inr rfl
      | some c =>
        rw [parseStep_merge decode marshal t d j s r p c hm heq hd]
        dsimp only
        rw [lookup_alInsert, if_pos rfl]
        exact Or.inl (merge_recordHash d marshal { c with recordHash := fnv1a64 r.buf } p t)

/-! Whole-refresh fold lemmas. -/

theorem phaseJournal_mono (decode : List Nat → Option Content)
    (marshal : Content → List Nat) (t : Int) :
    ∀ (L : List DumpRec) (acc : DumpState × List Int × ParseStatistics) (x : Int),
    x ∈ acc.2.1 → x ∈ (L.foldl (parseStep decode marshal t) acc).2.1 := by
  intro L
  induction L with
  | nil =>
    intro acc x h
    exact h
  | cons r L ih =>
    intro acc x h
    rw [List.foldl_cons]
    apply ih
    rcases acc with ⟨d, j, s⟩
    rw [parseStep_journal]
    by_cases hj : r.rid ∈ j
    · rw [if_pos hj]
      exact h
    · rw [if_neg hj]
      exact List.mem_cons_of_mem _ h

theorem phaseJournal_mem (decode : List Nat → Option Content)
    (marshal : Content → List Nat) (t : Int) :
    ∀ (L : List DumpRec) (acc : DumpState × List Int × ParseStatistics),
    ∀ r ∈ L, r.rid ∈ (L.foldl (parseStep decode marshal t) acc).2.1 := by
  intro L
  induction L with
  | nil =>
    intro acc r h
    cases h
  | cons r0 L ih =>
    intro acc r hr
    rw [List.foldl_cons]
    rcases List.mem_cons.mp hr with h | h
    · subst h
      apply phaseJournal_mono
      rcases acc with ⟨d, j, s⟩
      rw [parseStep_journal]
      by_cases hj : r.rid ∈ j
      · rw [if_pos hj]
        exact hj
      · rw [if_neg hj]
        exact List.mem_cons_self _ _
    · exact ih _ r h

theorem phaseJournal_subset (decode : List Nat → Option Content)
    (marshal : Content → List Nat) (t : Int) :
    ∀ (L : List DumpRec) (acc : DumpState × List Int × ParseStatistics) (x : Int),
    x ∈ (L.foldl (parseStep decode marshal t) acc).2.1 →
    x ∈ acc.2.1 ∨ x ∈ L.map DumpRec.rid := by
  intro L
  induction L with
  | nil =>
    intro acc x h
    exact Or.inl h
  | cons r L ih =>
    intro acc x h
    rw [List.foldl_cons] at h
    rcases ih _ _ h with h1 | h1
    · rcases acc with ⟨d, j, s⟩
      rw [parseStep_journal] at h1
      by_cases hj : r.rid ∈ j
      · rw [if_pos hj] at h1
        exact Or.inl h1
      · rw [if_neg hj] at h1
        rcases List.mem_cons.mp h1 with h2 | h2
        · exact Or.inr (by simp [h2])
        · exact Or.inl h2
    · exact Or.inr (by simp [h1])

theorem phasePreservesLookup (decode : List Nat → Option Content)
    (marshal : Content → List Nat) (t : Int) :
    ∀ (L : List DumpRec) (acc : DumpState × List Int × ParseStatistics) (id : Int),
    (∀ r ∈ L, ∀ c, decode r.buf = some c → c.id = r.rid) →
    id ∉ L.map DumpRec.rid →
    List.lookup id (L.foldl (parseStep decode marshal t) acc).1.contentIdx =
      List.lookup id acc.1.contentIdx := by
  intro L
  induction L with
  | nil =>
    intro acc id _ _
    rfl
  | cons r L ih =>
    intro acc id hc hnin
    rw [List.foldl_cons]
    have hnin' : id ∉ L.map DumpRec.rid := fun h => hnin (by simp [h])
    have hne : id ≠ r.rid := fun h => hnin (by simp [h])
    rw [ih _ _ (fun r' h => hc r' (List.mem_cons_of_mem _ h)) hnin']
    rcases acc with ⟨d, j, s⟩
    exact parseStep_lookup_other decode marshal t d j s r id
      (hc r (List.mem_cons_self _ _)) hne

theorem phase1Q (decode : List Nat → Option Content)
    (marshal : Content → List Nat) (t : Int) :
    ∀ (L : List DumpRec) (acc : DumpState × List Int × ParseStatistics),
    (L.map DumpRec.rid).Nodup →
    (∀ r ∈ L, ∀ c, decode r.buf = some c → c.id = r.rid) →
    ∀ r ∈ L, Qpred decode r (L.foldl (parseStep decode marshal t) acc).1 := by
  intro L
  induction L with
  | nil =>
    intro acc _ _ r h
    cases h
  | cons r0 L ih =>
    intro acc hnd hc r hr
    rw [List.foldl_cons]
    have hpair : (∀ x ∈ L, ¬ x.rid = r0.rid) ∧ (L.map DumpRec.rid).Nodup := by
      simpa using hnd
    have hnd0 : r0.rid ∉ L.map DumpRec.rid := by
      intro hmem
      rcases List.mem_map.mp hmem with ⟨x, hx, hxe⟩
      exact hpair.1 x hx hxe
    have hnd' : (L.map DumpRec.rid).Nodup := hpair.2
    have hc' : ∀ r' ∈ L, ∀ c, decode r'.buf = some c → c.id = r'.rid :=
      fun r' h => hc r' (List.mem_cons_of_mem _ h)
    rcases List.mem_cons.mp hr with h | h
    · subst h
      refine Qpred_congr decode r _ _
        (phasePreservesLookup decode marshal t L _ r.rid hc' hnd0) ?_
      rcases acc with ⟨d, j, s⟩
      exact parseStep_Q_self decode marshal t d j s r (hc r (List.mem_cons_self _ _))
    · exact ih _ hnd' hc' r h

theorem phase2Fold (decode : List Nat → Option Content)
    (marshal : Content → List Nat) (t : Int) :
    ∀ (L : List DumpRec) (d : DumpState) (j : List Int) (s : ParseStatistics),
    (∀ r ∈ L, Qpred decode r d) →
    (L.map DumpRec.rid).Nodup →
    (L.foldl (parseStep decode marshal t) (d, j, s)).2.2.addCount = s.addCount ∧
    (L.foldl (parseStep decode marshal t) (d, j, s)).2.2.updateCount = s.updateCount ∧
    (L.foldl (parseStep decode marshal t) (d, j, s)).2.2.removeCount = s.removeCount ∧
    (∀ id : Int,
      (List.lookup id (L.foldl (parseStep decode marshal t) (d, j, s)).1.contentIdx).isSome =
      (List.lookup id d.contentIdx).isSome) := by
  intro L
  induction L with
  | nil =>
    intro d j s _ _
    exact ⟨rfl, rfl, rfl, fun id => rfl⟩
  | cons r L ih =>
    intro d j s hQ hnd
    rw [List.foldl_cons]
    have hQr : Qpred decode r d := hQ r (List.mem_cons_self _ _)
    have hcounts := parseStep_counts_Q decode marshal t d j s r hQr
    have hstate := parseStep_state_Q decode marshal t d j s r hQr
    have hpair : (∀ x ∈ L, ¬ x.rid = r.rid) ∧ (L.map DumpRec.rid).Nodup := by
      simpa using hnd
    have hnd0 : r.rid ∉ L.map DumpRec.rid := by
      intro hmem
      rcases List.mem_map.mp hmem with ⟨x, hx, hxe⟩
      exact hpair.1 x hx hxe
    have hnd' : (L.map DumpRec.rid).Nodup := hpair.2
    have hlook : ∀ id : Int, id ≠ r.rid →
        List.lookup id (parseStep decode marshal t (d, j, s) r).1.contentIdx =
          List.lookup id d.contentIdx := by
      intro id hne
      rcases hstate with h1 | h1
      · rw [h1]
      · rw [h1, setCUT_lookup, if_neg hne]
    have hQ' : ∀ r' ∈ L, Qpred decode r' (parseStep decode marshal t (d, j, s) r).1 := by
      intro r' h'
      have hne : r'.rid ≠ r.rid := fun hh => hnd0 (hh ▸ List.mem_map_of_mem _ h')
      exact Qpred_congr decode r' _ _ (hlook r'.rid hne) (hQ r' (List.mem_cons_of_mem _ h'))
    have hih := ih (parseStep decode marshal t (d, j, s) r).1
      (parseStep decode marshal t (d, j, s) r).2.1
      (parseStep decode marshal t (d, j, s) r).2.2 hQ' hnd'
    refine ⟨hih.1.trans hcounts.1, hih.2.1.trans hcounts.2.1,
      hih.2.2.1.trans hcounts.2.2, ?_⟩
    intro id
    refine (hih.2.2.2 id).trans ?_
    rcases hstate with h1 | h1
    · rw [h1]
    · rw [h1, setCUT_lookup]
      by_cases hh : id = r.rid
      · rw [if_pos hh, hh]
        cases List.lookup r.rid d.contentIdx <;> rfl
      · rw [if_neg hh]

theorem phaseKeepsEntry (decode : List Nat → Option Content)
    (marshal : Content → List Nat) (t : Int) :
    ∀ (L : List DumpRec) (acc : DumpState × List Int × ParseStatistics)
      (id : Int) (p : PackedContent),
    (∀ r ∈ L, ∀ c, decode r.buf = some c → c.id = r.rid) →
    (∀ r' ∈ L, r'.rid = id → decode r'.buf = none ∧ fnv1a64 r'.buf ≠ p.recordHash) →
    List.lookup id acc.1.contentIdx = some p →
    List.lookup id (L.foldl (parseStep decode marshal t) acc).1.contentIdx = some p := by
  intro L
  induction L with
  | nil =>
    intro acc id p _ _ h
    exact h
  | cons r L ih =>
    intro acc id p hc hall hp
    rw [List.foldl_cons]
    apply ih _ _ _ (fun r' h => hc r' (List.mem_cons_of_mem _ h))
      (fun r' h => hall r' (List.mem_cons_of_mem _ h))
    rcases acc with ⟨d, j, s⟩
    by_cases hr : r.rid = id
    · obtain ⟨hd, hh⟩ := hall r (List.mem_cons_self _ _) hr
      have hp' : List.lookup r.rid d.contentIdx = some p := by
        rw [hr]
        exact hp
      rw [parseStep_skip_update decode marshal t d j s r p hp'
        (fun he => hh he.symm) hd]
      exact hp
    · rw [parseStep_lookup_other decode marshal t d j s r id
        (hc r (List.mem_cons_self _ _)) (fun he => hr he.symm)]
      exact hp

theorem purgeLoop_counts (seen : List Int) :
    ∀ (l : List (Int × PackedContent)) (d : DumpState) (s : ParseStatistics),
    (purgeLoop seen l d s).2.addCount = s.addCount ∧
    (purgeLoop seen l d s).2.updateCount = s.updateCount := by
  intro l
  induction l with
  | nil =>
    intro d s
    exact ⟨rfl, rfl⟩
  | cons p rest ih =>
    intro d s
    rcases p with ⟨id0, cont⟩
    unfold purgeLoop
    by_cases h0 : id0 ∈ seen
    · rw [if_pos h0]
      exact ih _ _
    · rw [if_neg h0]
      exact ih _ _

theorem purgeLoop_stats_const (seen : List Int) :
    ∀ (l : List (Int × PackedContent)) (d : DumpState) (s : ParseStatistics),
    (∀ pr ∈ l, pr.1 ∈ seen) → (purgeLoop seen l d s).2 = s := by
  intro l
  induction l with
  | nil =>
    intro d s _
    rfl
  | cons p rest ih =>
    intro d s hall
    rcases p with ⟨id0, cont⟩
    unfold purgeLoop
    rw [if_pos (hall (id0, cont) (List.mem_cons_self _ _))]
    exact ih _ _ (fun pr h => hall pr (List.mem_cons_of_mem _ h))

/-- C6: every record's id reaches the per-refresh seen journal, decode
failures included; and a previously stored entry whose every new record with
its id fails to decode (with a changed byte hash, the case in which decoding
is attempted) survives the refresh and the post-refresh sweep unchanged. -/
theorem seenJournalAndDecodeFailSurvival (decode : List Nat → Option Content)
    (marshal : Content → List Nat) (st0 : DumpState) (t : Int) (D : List DumpRec)
    (hdec : ∀ r ∈ D, ∀ c, decode r.buf = some c → c.id = r.rid) :
    (∀ r ∈ D, r.rid ∈ (ingest decode marshal st0 t D).2.1) ∧
    (∀ r ∈ D, ∀ p : PackedContent, List.lookup r.rid st0.contentIdx = some p →
      (∀ r' ∈ D, r'.rid = r.rid →
        decode r'.buf = none ∧ fnv1a64 r'.buf ≠ p.recordHash) →
      List.lookup r.rid (ingest decode marshal st0 t D).1.contentIdx = some p) := by
  constructor
  · intro r hr
    exact phaseJournal_mem decode marshal t D (st0, [], {}) r hr
  · intro r hr p hp hall
    have hfold := phaseKeepsEntry decode marshal t D (st0, [], {}) r.rid p hdec hall hp
    have hj := phaseJournal_mem decode marshal t D (st0, [], {}) r hr
    show List.lookup r.rid
      (purgeLoop (D.foldl (parseStep decode marshal t) (st0, [], {})).2.1
        (D.foldl (parseStep decode marshal t) (st0, [], {})).1.contentIdx
        (D.foldl (parseStep decode marshal t) (st0, [], {})).1
        (D.foldl (parseStep decode marshal t) (st0, [], {})).2.2).1.contentIdx = some p
    rw [purgeLoop_lookup_in _ _ _ _ _ hj]
    exact hfold

/-- Decoder used by the C6 witness: nothing decodes. -/
def c6dec : List Nat → Option Content := fun _ => none

/-- Pre-existing store for the C6 witness: entry 4 with record hash 77. -/
def c6Store : DumpState :=
  { emptyDump with contentIdx := [(4, { id := 4, recordHash := 77 })] }

/-- The C6 dump: one record with id 4 whose bytes do not decode. -/
def c6Recs : List DumpRec := [{ attrs := [⟨"id", "4"⟩], buf := [9] }]

/-- C6 witness: the journal/survival theorem applied to a concrete store and
dump whose single record (id 4) fails to decode with a changed hash. -/
theorem seenJournalAndDecodeFailSurvivalWitness :
    (4 : Int) ∈ (ingest c6dec marshal0 c6Store 50 c6Recs).2.1 ∧
    List.lookup 4 (ingest c6dec marshal0 c6Store 50 c6Recs).1.contentIdx =
      some { id := 4, recordHash := 77 } :=
  ⟨(seenJournalAndDecodeFailSurvival c6dec marshal0 c6Store 50 c6Recs
      (by intro r hr c hc; cases hc)).1
      { attrs := [⟨"id", "4"⟩], buf := [9] } (by decide),
   (seenJournalAndDecodeFailSurvival c6dec marshal0 c6Store 50 c6Recs
      (by intro r hr c hc; cases hc)).2
      { attrs := [⟨"id", "4"⟩], buf := [9] } (by decide)
      { id := 4, recordHash := 77 } (by decide)
      (by
        intro r' hr' _
        rcases (by simpa [c6Recs] using hr' :
          r' = ({ attrs := [⟨"id", "4"⟩], buf := [9] } : DumpRec)) with rfl
        exact ⟨rfl, by decide⟩)⟩

/-- C5 (amended): over a dump in which every record id occurs at most once,
re-ingesting the exact same records on the store produced by a previous
ingest of them yields zero adds, zero updates and zero removes — every
record either matches the stored hash (touch) or fails to decode both times
(skip).  The duplicate-id counterexample shows the restriction is needed. -/
theorem reingestSameBytesNoop (decode : List Nat → Option Content)
    (marshal : Content → List Nat) (st0 : DumpState) (t1 t2 : Int)
    (D : List DumpRec)
    (hnodup : (D.map DumpRec.rid).Nodup)
    (hdec : ∀ r ∈ D, ∀ c, decode r.buf = some c → c.id = r.rid) :
    (ingest decode marshal (ingest decode marshal st0 t1 D).1 t2 D).2.2.addCount = 0 ∧
    (ingest decode marshal (ingest decode marshal st0 t1 D).1 t2 D).2.2.updateCount = 0 ∧
    (ingest decode marshal (ingest decode marshal st0 t1 D).1 t2 D).2.2.removeCount
      = 0 := by
  set st1 := (ingest decode marshal st0 t1 D).1 with hst1
  have hQ1 : ∀ r ∈ D, Qpred decode r st1 := by
    intro r hr
    have h1 := phase1Q decode marshal t1 D (st0, [], {}) hnodup hdec r hr
    have hj := phaseJournal_mem decode marshal t1 D (st0, [], {}) r hr
    refine Qpred_congr decode r _ _ ?_ h1
    show List.lookup r.rid
      (purgeLoop (D.foldl (parseStep decode marshal t1) (st0, [], {})).2.1
        (D.foldl (parseStep decode marshal t1) (st0, [], {})).1.contentIdx
        (D.foldl (parseStep decode marshal t1) (st0, [], {})).1
        (D.foldl (parseStep decode marshal t1) (st0, [], {})).2.2).1.contentIdx =
      List.lookup r.rid (D.foldl (parseStep decode marshal t1) (st0, [], {})).1.contentIdx
    exact purgeLoop_lookup_in _ _ _ _ _ hj
  have hkeys1 : ∀ id : Int, (List.lookup id st1.contentIdx).isSome →
      id ∈ D.map DumpRec.rid := by
    intro id h
    by_contra hni
    have hnj : id ∉ (D.foldl (parseStep decode marshal t1) (st0, [], {})).2.1 := by
      intro hj
      rcases phaseJournal_subset decode marshal t1 D (st0, [], {}) id hj with h1 | h1
      · simp at h1
      · exact hni h1
    have hnone : List.lookup id st1.contentIdx = none := by
      show List.lookup id
        (purgeLoop (D.foldl (parseStep decode marshal t1) (st0, [], {})).2.1
          (D.foldl (parseStep decode marshal t1) (st0, [], {})).1.contentIdx
          (D.foldl (parseStep decode marshal t1) (st0, [], {})).1
          (D.foldl (parseStep decode marshal t1) (st0, [], {})).2.2).1.contentIdx = none
      apply purgeLoop_lookup_notin _ _ _ _ _ hnj
      cases hm : List.lookup id
          (D.foldl (parseStep decode marshal t1) (st0, [], {})).1.contentIdx with
      | none => exact Or.inr rfl
      | some v => exact Or.inl (List.mem_map_of_mem Prod.fst (mem_of_lookup hm))
    rw [hnone] at h
    simp at h
  have h2 := phase2Fold decode marshal t2 D st1 [] {} hQ1 hnodup
  have h3 : ∀ pr ∈ (D.foldl (parseStep decode marshal t2) (st1, [], {})).1.contentIdx,
      pr.1 ∈ (D.foldl (parseStep decode marshal t2) (st1, [], {})).2.1 := by
    intro pr hpr
    have hs : (List.lookup pr.1
        (D.foldl (parseStep decode marshal t2) (st1, [], {})).1.contentIdx).isSome := by
      rcases pr with ⟨k, v⟩
      exact lookup_isSome_of_mem hpr
    rw [h2.2.2.2 pr.1] at hs
    rcases List.mem_map.mp (hkeys1 pr.1 hs) with ⟨r, hrD, hrid⟩
    rw [← hrid]
    exact phaseJournal_mem decode marshal t2 D (st1, [], {}) r hrD
  have hpz := purgeLoop_stats_const
    (D.foldl (parseStep decode marshal t2) (st1, [], {})).2.1
    (D.foldl (parseStep decode marshal t2) (st1, [], {})).1.contentIdx
    (D.foldl (parseStep decode marshal t2) (st1, [], {})).1
    (D.foldl (parseStep decode marshal t2) (st1, [], {})).2.2 h3
  refine ⟨?_, ?_, ?_⟩
  · show (purgeLoop (D.foldl (parseStep decode marshal t2) (st1, [], {})).2.1
      (D.foldl (parseStep decode marshal t2) (st1, [], {})).1.contentIdx
      (D.foldl (parseStep decode marshal t2) (st1, [], {})).1
      (D.foldl (parseStep decode marshal t2) (st1, [], {})).2.2).2.addCount = 0
    rw [hpz]
    exact h2.1
  · show (purgeLoop (D.foldl (parseStep decode marshal t2) (st1, [], {})).2.1
      (D.foldl (parseStep decode marshal t2) (st1, [], {})).1.contentIdx
      (D.foldl (parseStep decode marshal t2) (st1, [], {})).1
      (D.foldl (parseStep decode marshal t2) (st1, [], {})).2.2).2.updateCount = 0
    rw [hpz]
    exact h2.2.1
  · show (purgeLoop (D.foldl (parseStep decode marshal t2) (st1, [], {})).2.1
      (D.foldl (parseStep decode marshal t2) (st1, [], {})).1.contentIdx
      (D.foldl (parseStep decode marshal t2) (st1, [], {})).1
      (D.foldl (parseStep decode marshal t2) (st1, [], {})).2.2).2.removeCount = 0
    rw [hpz]
    exact h2.2.2.1

/-- Decoder for the C5 witness: every byte string decodes to id 8. -/
def c5wDec : List Nat → Option Content := fun _ => some { id := 8 }

/-- C5 witness dump: one record with id 8. -/
def c5wRecs : List DumpRec := [{ attrs := [⟨"id", "8"⟩], buf := [1, 2] }]

/-- `parseContentElement` — the attribute pass over the `<content>` start
element (from the source): `id`, `entryType` and `urgencyType` must parse as
integers or the whole record decode fails; the time parsers are passed in
because their defining file is not under src/. -/
def parseContentElement (parseMoscowTime parseRFC3339Time : String → Int)
    (attrs : List Attr) (content : Content) : Option Content :=
  attrs.foldl (fun acc attr =>
    match acc with
    | none => none
    | some c =>
      if attr.name == "id" then
        (atoi attr.value).map (fun id => { c with id := toInt32 id })
      else if attr.name == "entryType" then
        (atoi attr.value).map (fun v => { c with entryType := toInt32 v })
      else if attr.name == "urgencyType" then
        (atoi attr.value).map (fun v => { c with urgencyType := toInt32 v })
      else if attr.name == "includeTime" then
        some { c with includeTime := parseMoscowTime attr.value }
      else if attr.name == "blockType" then
        some { c with blockType := attr.value }
      else if attr.name == "hash" then
        some { c with hash := attr.value }
      else if attr.name == "ts" then
        some { c with ts := parseRFC3339Time attr.value }
      else some c) (some content)

/-- Stand-in Moscow-time parser for concrete evaluation. -/
def pmt0 : String → Int := fun _ => 0

/-- Stand-in RFC3339 parser for concrete evaluation. -/
def prt0 : String → Int := fun _ => 0

/-- Decoder reflecting `UnmarshalContent` on a record whose id attribute does
not parse: `parseContentElement` rejects it, so the decode fails. -/
def c10dec : List Nat → Option Content := fun _ => none

/-- A dump with a single record whose id attribute is the unparseable
string "12x". -/
def c10Recs : List DumpRec := [{ attrs := [⟨"id", "12x"⟩], buf := [3] }]

/-- C10 counterexample: a record whose id attribute is present but
unparseable is journaled under id 0 but NOT stored — `parseContentElement`
(and hence `UnmarshalContent`) rejects it, the add path breaks, and the
store stays empty — contradicting the claim that all such records are
stored under entry id 0. -/
theorem malformedIdJournaledNotStored :
    parseContentElement pmt0 prt0 [⟨"id", "12x"⟩] {} = none ∧
    (ingest c10dec marshal0 emptyDump 0 c10Recs).2.1 = [0] ∧
    (ingest c10dec marshal0 emptyDump 0 c10Recs).1.contentIdx = [] := by decide

/-- Decoder for the missing-id collision: the record body decodes and its id
attribute is absent, so the decoded id stays 0. -/
def c10mDec : List Nat → Option Content := fun _ => some {}

/-- Two records with no id attribute and different bodies. -/
def c10mRecs : List DumpRec :=
  [{ attrs := [], buf := [1] }, { attrs := [⟨"ts", "t"⟩], buf := [2] }]

/-- C10 (amended): a missing id attribute or an unparseable id value makes
`getContentId` return 0 and the parse loop proceeds; all such records are
journaled under id 0; records whose id attribute is missing also decode and
collide in the store under entry id 0; but a record whose id attribute is
present and unparseable fails the record decode and is skipped (journaled
only, not stored). -/
theorem contentIdFallbackZero :
    (∀ attrs : List Attr, (∀ a ∈ attrs, a.name ≠ "id") → getContentId attrs = 0) ∧
    (∀ (attrs : List Attr) (v : String), atoi v = none →
      getContentId (attrs ++ [⟨"id", v⟩]) = 0) ∧
    ((ingest c10mDec marshal0 emptyDump 0 c10mRecs).2.1 = [0] ∧
      (ingest c10mDec marshal0 emptyDump 0 c10mRecs).1.contentIdx.map Prod.fst
        = [0]) := by
  have key : ∀ (l : List Attr) (acc : Int), (∀ a ∈ l, a.name ≠ "id") →
      l.foldl (fun id a => if a.name == "id" then (atoi a.value).getD 0 else id) acc
        = acc := by
    intro l
    induction l with
    | nil =>
      intro acc _
      rfl
    | cons a l ih =>
      intro acc h
      rw [List.foldl_cons]
      have hna : (a.name == "id") = false := by
        rw [beq_eq_false_iff_ne]
        exact h a (List.mem_cons_self _ _)
      rw [hna]
      simp only [Bool.false_eq_true, if_false]
      exact ih _ (fun a' h' => h a' (List.mem_cons_of_mem _ h'))
  refine ⟨?_, ?_, by decide⟩
  · intro attrs h
    unfold getContentId
    rw [key attrs 0 h]
    decide
  · intro attrs v hv
    unfold getContentId
    rw [List.foldl_append]
    simp [hv]
    decide

/-- C10 witness: the fallback theorem applied at a concrete missing-id
attribute list and at a concrete unparseable id value. -/
theorem contentIdFallbackZeroWitness :
    getContentId [⟨"x", "5"⟩] = 0 ∧ getContentId [⟨"id", "12x"⟩] = 0 :=
  ⟨contentIdFallbackZero.1 [⟨"x", "5"⟩] (by decide),
   contentIdFallbackZero.2.1 [] "12x" (by decide)⟩

/-- C5 witness: the no-op re-ingest theorem applied at a concrete one-record
dump with a consistent decoder. -/
theorem reingestSameBytesNoopWitness :
    (ingest c5wDec marshal0 (ingest c5wDec marshal0 emptyDump 1 c5wRecs).1
      2 c5wRecs).2.2.addCount = 0 ∧
    (ingest c5wDec marshal0 (ingest c5wDec marshal0 emptyDump 1 c5wRecs).1
      2 c5wRecs).2.2.updateCount = 0 ∧
    (ingest c5wDec marshal0 (ingest c5wDec marshal0 emptyDump 1 c5wRecs).1
      2 c5wRecs).2.2.removeCount = 0 :=
  reingestSameBytesNoop c5wDec marshal0 emptyDump 1 2 c5wRecs (by decide)
    (by
      intro r hr c hc
      rcases (by simpa [c5wRecs] using hr :
        r = ({ attrs := [⟨"id", "8"⟩], buf := [1, 2] } : DumpRec)) with rfl
      rcases (by simpa [c5wDec] using hc : ({ id := 8 } : Content) = c) with rfl
      decide)

end U2ck
